import Mathlib

/-
Verification of the jolang parser-combinator library (the final, cursor-based
revision of the parser: `Source`, combinator kernel, lexical atoms, and the
statement/expression grammar).

Modelling conventions (shallow embedding):
* The input string is a `List Char` (one entry per rune); offsets count runes.
  For valid UTF-8 input this is isomorphic to Go's byte offsets for all the
  structural properties below (monotonicity, clamping, cursor equality).
* Go's `interface{}` match payloads become the tagged sum `Val`.
* Go's `unicode.IsLetter` / `unicode.IsDigit` / `unicode.IsSpace` are modelled
  by `Char.isAlpha` / `Char.isDigit` / `Char.isWhitespace` (they agree on the
  ASCII inputs all concrete theorems below use).
* Go's `fmt.Sprintf("%q", s)` is modelled by `goQuote` (correct for strings
  that need no escaping, which covers every message the theorems mention).
* A parser is `Source → Option PResult`; `none` models divergence of the Go
  code (`ZeroOrMore`/`OneOrMore` can loop forever on a non-advancing inner
  parser), introduced by the explicit fuel of `repLoop`.  Everything else is
  total and `none`-free.
-/

namespace Jolang

/-- Go token constants (`go/token`) that the parser mentions. -/
inductive Tok where
  | tADD | tMUL | tQUO | tEQL | tLSS | tGTR | tREM | tNEQ
  | tAND | tINC | tDEC | tDEFINE | tASSIGN | tVAR
  deriving DecidableEq, Repr

/-- The `Kind` field of `ast.BasicLit`. -/
inductive LitKind where
  | int | float | char | string
  deriving DecidableEq, Repr

/-- The Go AST nodes (`go/ast`) produced by the grammar rules the claims
need (expression and statement nodes).  `nilA` models a `nil` Go interface
value stored in an AST slot (only reachable through type-switch fallthrough
that the real grammar never exercises). -/
inductive Ast where
  | nilA
  | ident (name : String)
  | basicLit (kind : LitKind) (value : String)
  | binaryExpr (x : Ast) (op : Tok) (y : Ast)
  | unaryExpr (op : Tok) (x : Ast)
  | selectorExpr (x : Ast) (sel : Ast)
  | callExpr (fn : Ast) (args : List Ast)
  | exprStmt (x : Ast)
  | blockStmt (list : List Ast)
  | ifStmt (cond : Ast) (body : Ast) (els : Option Ast)
  | forStmt (ini : Ast) (cond : Ast) (post : Ast) (body : Ast)
  | assignStmt (lhs : List Ast) (tok : Tok) (rhs : List Ast)
  | declStmt (name : Ast) (ty : Ast)
  | incDecStmt (x : Ast) (tok : Tok)
  | switchStmt (clauses : List Ast)
  | caseClause (list : List Ast) (body : List Ast)
  | field (name : Ast) (ty : Ast)
  | structType (fields : List Ast)
  | typeDecl (name : Ast) (ty : Ast)
  | importDecl (paths : List Ast)
  | funcDecl (name : Ast) (body : List Ast)

/-- The heterogeneous `interface{}` payload of a match.  `stmtList` is the
dynamic Go type `[]ast.Stmt`, `exprList` is `[]ast.Expr`, `selCall` is the
unexported `selectorCall` struct, `list` is `[]interface{}`, `pair` is
`MatchedPair`, and `null` is the `nil` interface. -/
inductive Val where
  | null
  | str (s : String)
  | ch (c : Char)
  | tok (t : Tok)
  | pair (left right : Val)
  | list (vs : List Val)
  | node (a : Ast)
  | selCall (sel : Ast) (args : List Ast)
  | stmtList (l : List Ast)
  | exprList (l : List Ast)

/-- `type Source struct { Content *string; Offset int }`. -/
structure Source where
  content : List Char
  offset : Nat
  deriving DecidableEq, Repr

/-- `func (s Source) Remaining() string { return (*s.Content)[s.Offset:] }` -/
def Source.remaining (s : Source) : List Char := s.content.drop s.offset

/-- `func (s Source) Finished() bool { return s.Offset >= len(*s.Content) }` -/
def Source.finished (s : Source) : Bool := decide (s.content.length ≤ s.offset)

/-- `func (s Source) Advance(n int) Source` — clamps at the end of input. -/
def Source.advance (s : Source) (n : Nat) : Source :=
  if s.content.length ≤ n + s.offset then
    { content := s.content, offset := s.content.length }
  else
    { content := s.content, offset := s.offset + n }

/-- The `utf8.RuneError` sentinel. -/
def runeError : Char := Char.ofNat 0xFFFD

/-- `func (s Source) PeekRune() (rune, int)` — at end of input Go's
`utf8.DecodeRuneInString` yields `(RuneError, 0)`. -/
def Source.peekRune (s : Source) : Char × Nat :=
  match s.remaining with
  | [] => (runeError, 0)
  | c :: _ => (c, 1)

/-- `func (s Source) Peek() string { for _, r := range *s.Content { return string(r) }; return "" }`
Note that the Go loop ranges over the WHOLE content, not the unparsed
remainder, so this returns the first rune of the entire input regardless of
the current offset. -/
def Source.peek (s : Source) : String :=
  match s.content with
  | [] => ""
  | c :: _ => String.singleton c

/-- `func NewSource(content string) Source`. -/
def mkSource (content : String) : Source :=
  { content := content.toList, offset := 0 }

/-- `type ParseError struct { Offset int; Message string }`. -/
structure ParseError where
  offset : Nat
  message : String
  deriving DecidableEq, Repr

/-- The triple returned by `Parse(input) (output Source, matched interface{}, err error)`:
either a success carrying the output cursor and payload, or a failure carrying
the output cursor and the error. -/
inductive PResult where
  | ok (output : Source) (matched : Val)
  | err (output : Source) (e : ParseError)

/-- A parser.  `none` stands for divergence of the Go code. -/
def OParser := Source → Option PResult

/-- Models `%q` applied to a string that needs no escaping. -/
def goQuote (s : String) : String := "\"" ++ s ++ "\""

/-- The apostrophe character, U+0027. -/
def quoteCh : Char := Char.ofNat 39

/-- Models `%q` applied to a rune that needs no escaping. -/
def goQuoteChar (c : Char) : String :=
  String.singleton quoteCh ++ String.singleton c ++ String.singleton quoteCh

/-- `func Literal(s string) ParserFunc`. -/
def literal (s : String) : OParser := fun input =>
  if s.toList.isPrefixOf input.remaining then
    some (.ok (input.advance s.length) (.str s))
  else
    some (.err input
      { offset := input.offset
        message := "wanted a literal " ++ goQuote s ++ ", got: " ++ goQuote input.peek })

/-- Stand-in for `unicode.IsLetter` (agrees on ASCII). -/
def isGoLetter (c : Char) : Bool := c.isAlpha

/-- The inner scan of `Identifier` past the first rune: letters, digits and
underscores are accumulated; the first other rune stops the scan. -/
def identTail : List Char → List Char
  | [] => []
  | c :: rest =>
    if isGoLetter c || c = '_' || c.isDigit then c :: identTail rest else []

/-- `var Identifier = ParserFunc(...)`: one letter-or-underscore first rune
followed by letters/digits/underscores.  On empty remaining input the Go
range-loop body never runs, so it succeeds with the empty match. -/
def identifier : OParser := fun input =>
  match input.remaining with
  | [] => some (.ok (input.advance 0) (.str ""))
  | c :: rest =>
    if isGoLetter c || c = '_' then
      some (.ok (input.advance (c :: identTail rest).length) (.str (String.mk (c :: identTail rest))))
    else
      some (.err input
        { offset := input.offset
          message := "wanted identifier, got " ++ goQuoteChar c })

/-- `func Pair(p1, p2 Parser) ParserFunc` — on either inner failure the
caller receives the original input cursor. -/
def pairP (p1 p2 : OParser) : OParser := fun input =>
  match p1 input with
  | none => none
  | some (.err _ e) => some (.err input e)
  | some (.ok r left) =>
    match p2 r with
    | none => none
    | some (.err _ e) => some (.err input e)
    | some (.ok r2 right) => some (.ok r2 (.pair left right))

/-- The loop of `func Sequence(ps ...Parser)`. -/
def sequenceAux : List OParser → Source → List Val → Option (Except ParseError (Source × List Val))
  | [], r, acc => some (.ok (r, acc))
  | p :: rest, r, acc =>
    match p r with
    | none => none
    | some (.err _ e) => some (.error e)
    | some (.ok r2 m) => sequenceAux rest r2 (acc ++ [m])

/-- `func Sequence(ps ...Parser) ParserFunc`. -/
def sequenceP (ps : List OParser) : OParser := fun input =>
  match sequenceAux ps input [] with
  | none => none
  | some (.error e) => some (.err input e)
  | some (.ok (r, ms)) => some (.ok r (.list ms))

/-- `pair.(MatchedPair).Left` (always applied to a `Pair` payload). -/
def Val.leftOf : Val → Val
  | .pair l _ => l
  | _ => .null

/-- `pair.(MatchedPair).Right` (always applied to a `Pair` payload). -/
def Val.rightOf : Val → Val
  | .pair _ r => r
  | _ => .null

/-- `func Left(p1, p2 Parser) ParserFunc`. -/
def leftP (p1 p2 : OParser) : OParser := fun input =>
  match pairP p1 p2 input with
  | none => none
  | some (.err o e) => some (.err o e)
  | some (.ok o v) => some (.ok o v.leftOf)

/-- `func Right(p1, p2 Parser) ParserFunc`. -/
def rightP (p1 p2 : OParser) : OParser := fun input =>
  match pairP p1 p2 input with
  | none => none
  | some (.err o e) => some (.err o e)
  | some (.ok o v) => some (.ok o v.rightOf)

/-- The shared `for { if output.Finished() { break } ... }` loop of
`OneOrMore` and `ZeroOrMore`: stops at end of input or at the first failure
of `p` (keeping, as the Go code does, the cursor `p` returned on failure).
The `Nat` argument is fuel; running out models divergence. -/
def repLoop (p : OParser) : Nat → Source → List Val → Option PResult
  | 0, _, _ => none
  | fuel + 1, output, ms =>
    if output.finished then some (.ok output (.list ms))
    else
      match p output with
      | none => none
      | some (.err o _) => some (.ok o (.list ms))
      | some (.ok o m) => repLoop p fuel o (ms ++ [m])

/-- `func ZeroOrMore(p Parser) ParserFunc`. -/
def zeroOrMore (fuel : Nat) (p : OParser) : OParser := fun input =>
  repLoop p fuel input []

/-- `func OneOrMore(p Parser) ParserFunc` — the first application of `p`
is not guarded by `Finished()` and its failure fails the whole parse. -/
def oneOrMore (fuel : Nat) (p : OParser) : OParser := fun input =>
  match p input with
  | none => none
  | some (.err o e) => some (.err o e)
  | some (.ok o m) => repLoop p fuel o [m]

/-- `func Optional(p Parser) ParserFunc`. -/
def optionalP (p : OParser) : OParser := fun input =>
  match p input with
  | none => none
  | some (.err _ _) => some (.ok input .null)
  | some (.ok r m) => some (.ok r m)

/-- `var AnyChar = ParserFunc(...)` — `r, size := output.PeekRune()` then
branches on `r == utf8.RuneError` and `size == 1`. -/
def anyChar : OParser := fun input =>
  if input.peekRune.1 = runeError then
    if input.peekRune.2 = 1 then
      some (.err input
        { offset := input.offset
          message := "wanted any character, got invalid UTF-8 encoding" })
    else
      some (.err input
        { offset := input.offset
          message := "wanted any character, got " ++ goQuote "" })
  else
    some (.ok (input.advance input.peekRune.2) (.ch input.peekRune.1))

/-- `func Pred(p Parser, f func(matched interface{}) bool) ParserFunc` — on
any failure the caller receives the original cursor. -/
def predP (p : OParser) (f : Val → Bool) : OParser := fun input =>
  match p input with
  | none => none
  | some (.err _ e) => some (.err input e)
  | some (.ok r m) =>
    if f m then some (.ok r m)
    else some (.err input { offset := input.offset, message := "predicate failed" })

/-- `func Map(p Parser, f func(matched interface{}) interface{}) ParserFunc` —
note that on failure the cursor `p` returned is passed through unchanged. -/
def mapP (p : OParser) (f : Val → Val) : OParser := fun input =>
  match p input with
  | none => none
  | some (.err o e) => some (.err o e)
  | some (.ok o m) => some (.ok o (f m))

/-- The loop of `func Choice(ps ...Parser)`: each alternative is tried on the
original input; the first success is returned; when every alternative fails
the error of the last one is returned with the original cursor.  (With no
alternatives the Go loop body never runs and the nil error means success.) -/
def choiceGo (input : Source) : List OParser → Option PResult
  | [] => some (.ok input .null)
  | p :: rest =>
    match p input with
    | none => none
    | some (.ok r m) => some (.ok r m)
    | some (.err _ e) =>
      match rest with
      | [] => some (.err input e)
      | _ :: _ => choiceGo input rest

/-- `func Choice(ps ...Parser) ParserFunc`. -/
def choiceP (ps : List OParser) : OParser := fun input => choiceGo input ps

/-- `func Rune(r rune) ParserFunc` — `c, size := output.PeekRune()` then
branches on `c == utf8.RuneError`, `size == 1` and `r != c`. -/
def runeP (r : Char) : OParser := fun input =>
  if input.peekRune.1 = runeError then
    if input.peekRune.2 = 1 then
      some (.err input
        { offset := input.offset
          message := "wanted a literal " ++ goQuoteChar r ++ ", got invalid UTF-8 encoding" })
    else
      some (.err input
        { offset := input.offset
          message := "wanted a literal " ++ goQuoteChar r ++ ", got " ++ goQuote "" })
  else
    if r = input.peekRune.1 then
      some (.ok (input.advance input.peekRune.2) (.ch input.peekRune.1))
    else
      some (.err input
        { offset := input.offset
          message := "wanted a literal " ++ goQuoteChar r ++ ", got " ++ goQuoteChar input.peekRune.1 })

/-- `func WhitespaceChar() ParserFunc`. -/
def whitespaceChar : OParser :=
  predP anyChar (fun v =>
    match v with
    | .ch c => c.isWhitespace
    | _ => false)

/-- `func OneOrMoreWhitespaceChars() ParserFunc`. -/
def oneOrMoreWS (fuel : Nat) : OParser := oneOrMore fuel whitespaceChar

/-- `func ZeroOrMoreWhitespaceChars() ParserFunc`. -/
def zeroOrMoreWS (fuel : Nat) : OParser := zeroOrMore fuel whitespaceChar

/-- `func WhitespaceWrap(p Parser) ParserFunc`. -/
def whitespaceWrap (fuel : Nat) (p : OParser) : OParser :=
  rightP (zeroOrMoreWS fuel) (leftP p (zeroOrMoreWS fuel))

/-- `func Parenthesized(p Parser) ParserFunc`. -/
def parenthesized (p : OParser) : OParser :=
  rightP (runeP '(') (leftP p (runeP ')'))

/-- `func MapConst(p Parser, v interface{}) Parser`. -/
def mapConst (p : OParser) (v : Val) : OParser := mapP p (fun _ => v)

end Jolang

namespace Jolang

/-- Which AST nodes satisfy Go's `ast.Expr` interface. -/
def isGoExpr : Ast → Bool
  | .ident _ => true
  | .basicLit _ _ => true
  | .binaryExpr _ _ _ => true
  | .unaryExpr _ _ => true
  | .selectorExpr _ _ => true
  | .callExpr _ _ => true
  | .structType _ => true
  | _ => false

/-- Which AST nodes satisfy Go's `ast.Stmt` interface. -/
def isGoStmt : Ast → Bool
  | .exprStmt _ => true
  | .blockStmt _ => true
  | .ifStmt _ _ _ => true
  | .forStmt _ _ _ _ => true
  | .assignStmt _ _ _ => true
  | .declStmt _ _ => true
  | .incDecStmt _ _ => true
  | .switchStmt _ => true
  | .caseClause _ _ => true
  | _ => false

/-- `ast.NewIdent(matched.(string))` — the map function of `Ident`. -/
def mkIdent : Val → Val
  | .str s => .node (.ident s)
  | _ => .null

/-- `var Ident = Map(Identifier, ...)`. -/
def identP : OParser := mapP identifier mkIdent

/-- The map function of `QualifiedIdent` (`pair.Left.(*ast.Ident)` etc.). -/
def mkQualifiedIdent : Val → Val
  | .pair (.node x) (.node sel) => .node (.selectorExpr x sel)
  | _ => .null

/-- `var QualifiedIdent = Map(Pair(Ident, Right(Rune('.'), Ident)), ...)`. -/
def qualifiedIdent : OParser :=
  mapP (pairP identP (rightP (runeP '.') identP)) mkQualifiedIdent

/-- `var OperandName = Choice(QualifiedIdent, Ident)`. -/
def operandName : OParser := choiceP [qualifiedIdent, identP]

/-- `var decimalDigit = Pred(AnyChar, unicode.IsDigit)`. -/
def decimalDigit : OParser :=
  predP anyChar (fun v =>
    match v with
    | .ch c => c.isDigit
    | _ => false)

/-- `nonZeroDigit := Pred(decimalDigit, matched != '0')` — the Go interface
comparison is false only for a rune payload equal to `'0'`. -/
def nonZeroDigit : OParser :=
  predP decimalDigit (fun v =>
    match v with
    | .ch c => c != '0'
    | _ => true)

/-- A `strings.Builder` loop writing each `r.(rune)` of a `[]interface{}`
payload (non-rune elements are unreachable in the grammar). -/
def runesToString (vs : List Val) : List Char :=
  vs.map (fun v =>
    match v with
    | .ch c => c
    | _ => runeError)

/-- The map function of `nonZeroDecimalLit`. -/
def mkNonZeroDecimal : Val → Val
  | .pair (.ch first) (.list rest) => .str (String.mk (first :: runesToString rest))
  | _ => .null

/-- The outer map function of `decimalLit` (`&ast.BasicLit{INT, matched.(string)}`). -/
def mkIntLit : Val → Val
  | .str s => .node (.basicLit .int s)
  | _ => .null

/-- `func decimalLit() ParserFunc` — `Choice(Literal("0"), nonZeroDecimalLit)`
wrapped into an INT literal. -/
def decimalLitP (fuel : Nat) : OParser :=
  mapP (choiceP [literal "0",
    mapP (pairP nonZeroDigit (zeroOrMore fuel decimalDigit)) mkNonZeroDecimal]) mkIntLit

/-- The map function of `_decimalFloatLit.Parse`. -/
def mkFloatLit : Val → Val
  | .pair (.list intPart) (.list fracPart) =>
    .node (.basicLit .float
      (String.mk (runesToString intPart) ++ "." ++ String.mk (runesToString fracPart)))
  | _ => .null

/-- `decimalFloatLit`: digits, `'.'`, digits. -/
def decimalFloatLitP (fuel : Nat) : OParser :=
  mapP (pairP (oneOrMore fuel decimalDigit) (rightP (runeP '.') (oneOrMore fuel decimalDigit)))
    mkFloatLit

/-- `var escapedChar = Choice(Literal(...), ...)`. -/
def escapedCharP : OParser :=
  choiceP [literal "\\a", literal "\\b", literal "\\f", literal "\\n", literal "\\r",
    literal "\\t", literal "\\v", literal "\\\\",
    literal (String.mk ['\\', quoteCh]), literal "\\\""]

/-- The map function of `RuneLit` (string/rune type switch, re-quoted). -/
def mkRuneLit : Val → Val
  | .str v => .node (.basicLit .char (String.singleton quoteCh ++ v ++ String.singleton quoteCh))
  | .ch c =>
    .node (.basicLit .char
      (String.singleton quoteCh ++ String.singleton c ++ String.singleton quoteCh))
  | _ => .null

/-- `var RuneLit = Map(Right(Rune('\''), Left(Choice(escapedChar, AnyChar), Rune('\''))), ...)`. -/
def runeLitP : OParser :=
  mapP (rightP (runeP quoteCh) (leftP (choiceP [escapedCharP, anyChar]) (runeP quoteCh)))
    mkRuneLit

/-- The map function of `QuotedString`. -/
def mkQuotedString : Val → Val
  | .list vs => .str (String.mk (runesToString vs))
  | _ => .null

/-- `func QuotedString() ParserFunc`. -/
def quotedStringP (fuel : Nat) : OParser :=
  mapP (rightP (literal "\"")
    (leftP (zeroOrMore fuel (predP anyChar (fun v =>
        match v with
        | .ch c => c != '"'
        | _ => true)))
      (literal "\""))) mkQuotedString

/-- The map function of `stringLit`. -/
def mkStringLit : Val → Val
  | .str s => .node (.basicLit .string ("\"" ++ s ++ "\""))
  | _ => .null

/-- `func stringLit() ParserFunc`. -/
def stringLitP (fuel : Nat) : OParser := mapP (quotedStringP fuel) mkStringLit

/-- `func basicLit() ParserFunc = Choice(decimalFloatLit, decimalLit(), RuneLit, stringLit())`. -/
def basicLitP (fuel : Nat) : OParser :=
  choiceP [decimalFloatLitP fuel, decimalLitP fuel, runeLitP, stringLitP fuel]

/-- `func Keyword(k string) Parser = Pred(Identifier, matched.(string) == k)`:
the whole identifier matched at the cursor must equal `k`. -/
def keywordP (k : String) : OParser :=
  predP identifier (fun v =>
    match v with
    | .str s => s == k
    | _ => false)

/-- `var BinaryOp = Choice(...)`. -/
def binaryOp : OParser :=
  choiceP [mapConst (runeP '+') (.tok .tADD), mapConst (runeP '*') (.tok .tMUL),
    mapConst (runeP '/') (.tok .tQUO), mapConst (runeP '=') (.tok .tEQL),
    mapConst (runeP '<') (.tok .tLSS), mapConst (runeP '>') (.tok .tGTR),
    mapConst (runeP '%') (.tok .tREM), mapConst (literal "!=") (.tok .tNEQ)]

/-- `var UnaryOp = Choice(MapConst(Rune('&'), token.AND))`. -/
def unaryOp : OParser := choiceP [mapConst (runeP '&') (.tok .tAND)]

/-- The lazily-tied recursive rules (`Expr`, `StatementList` and `Block` are
referenced through pointer-backed `Parse` methods in Go; here each reference
costs one unit of grammar fuel). -/
structure Rules where
  expr : OParser
  statementList : OParser
  block : OParser

/-- `a.(ast.Expr)` / `a.(ast.Stmt)`-style direct downcast of a payload. -/
def nodeOf (v : Val) : Ast :=
  match v with
  | .node a => a
  | _ => .nilA

/-- `[]interface{}` payload to `[]ast.Expr` by element-wise downcast. -/
def nodesOf (vs : List Val) : List Ast :=
  vs.map (fun v =>
    match v with
    | .node a => a
    | _ => Ast.nilA)

/-- The map function of `binaryExpr.Parse`. -/
def mkBinaryExpr : Val → Val
  | .pair (.tok op) (.pair (.node x) (.node y)) => .node (.binaryExpr x op y)
  | _ => .null

/-- `binaryExpr.Parse`: `(OP Expr Expr)` in parentheses. -/
def binaryExprR (n : Nat) (r : Rules) : OParser :=
  mapP (parenthesized (pairP binaryOp
    (rightP (oneOrMoreWS n) (pairP r.expr (rightP (oneOrMoreWS n) r.expr))))) mkBinaryExpr

/-- The map function of `UnaryExpr`. -/
def mkUnaryExpr : Val → Val
  | .pair (.tok op) (.node x) => .node (.unaryExpr op x)
  | _ => .null

/-- `var UnaryExpr = Map(Pair(UnaryOp, Expr), ...)` (not parenthesized). -/
def unaryExprR (r : Rules) : OParser := mapP (pairP unaryOp r.expr) mkUnaryExpr

/-- The map function of `callExpr.Parse`. -/
def mkCallExpr : Val → Val
  | .pair (.node fn) (.list args) => .node (.callExpr fn (nodesOf args))
  | _ => .null

/-- `callExpr.Parse`: `(OperandName Expr*)`. -/
def callExprR (n : Nat) (r : Rules) : OParser :=
  mapP (parenthesized (pairP operandName (zeroOrMore n (rightP (oneOrMoreWS n) r.expr))))
    mkCallExpr

/-- The map function of `SelectorCall` (`match.Left.(*ast.Ident)`). -/
def mkSelectorCall : Val → Val
  | .pair (.node (.ident s)) (.list args) => .selCall (.ident s) (nodesOf args)
  | _ => .null

/-- `var SelectorCall = Map(Parenthesized(Pair(Ident, ZeroOrMore(Right(ws, Expr)))), ...)`. -/
def selectorCallR (n : Nat) (r : Rules) : OParser :=
  mapP (parenthesized (pairP identP (zeroOrMore n (rightP (oneOrMoreWS n) r.expr))))
    mkSelectorCall

/-- The suffix fold of `selector.Parse`: a Go `for` loop over the suffix
payloads, threading the accumulator `expr`; an `*ast.Ident` suffix wraps the
accumulator in a `SelectorExpr`, a `selectorCall` suffix wraps it in a
`CallExpr` whose `Fun` is a `SelectorExpr`; payloads matching neither case
of the type switch leave the accumulator unchanged. -/
def selFoldGo : Ast → List Val → Ast
  | acc, [] => acc
  | acc, v :: rest =>
    match v with
    | .node (.ident s) => selFoldGo (.selectorExpr acc (.ident s)) rest
    | .selCall sel args => selFoldGo (.callExpr (.selectorExpr acc sel) args) rest
    | _ => selFoldGo acc rest

/-- The map function of `selector.Parse`. -/
def mkSelector : Val → Val
  | .pair (.node base) (.list suffixes) => .node (selFoldGo base suffixes)
  | _ => .null

/-- `selector.Parse`: `(sel Expr (SelectorCall | Ident)+)` — note the
`Literal("sel")` head followed by mandatory whitespace. -/
def selectorR (n : Nat) (r : Rules) : OParser :=
  mapP (parenthesized (rightP (literal "sel")
    (rightP (oneOrMoreWS n)
      (pairP r.expr
        (oneOrMore n (rightP (oneOrMoreWS n) (choiceP [selectorCallR n r, identP])))))))
    mkSelector

/-- The map function of `ExprStmt`. -/
def mkExprStmt : Val → Val
  | .node a => .node (.exprStmt a)
  | _ => .null

/-- `var ExprStmt = Map(Expr, ...)`. -/
def exprStmtR (r : Rules) : OParser := mapP r.expr mkExprStmt

/-- The map function of `IncDecStmt`. -/
def mkIncDec : Val → Val
  | .pair (.tok t) (.node x) => .node (.incDecStmt x t)
  | _ => .null

/-- `var IncDecStmt = Map(Parenthesized(Pair(Choice(Keyword("inc"), Keyword("dec")), WhitespaceWrap(Expr))), ...)`. -/
def incDecStmtR (n : Nat) (r : Rules) : OParser :=
  mapP (parenthesized (pairP
    (choiceP [mapConst (keywordP "inc") (.tok .tINC), mapConst (keywordP "dec") (.tok .tDEC)])
    (whitespaceWrap n r.expr))) mkIncDec

/-- The map function of `DoExpr`: the identity downcast `matched.([]ast.Stmt)`. -/
def mkDoExpr : Val → Val
  | .stmtList l => .stmtList l
  | _ => .null

/-- `var DoExpr = Map(Parenthesized(Right(Literal("do"), StatementList)), ...)` —
the head is `Literal("do")`, with no whitespace required after it. -/
def doExprR (r : Rules) : OParser :=
  mapP (parenthesized (rightP (literal "do") r.statementList)) mkDoExpr

/-- The per-element type switch in `statementList.Parse`: an `ast.Expr` is
lifted to an `ExprStmt`, an `ast.Stmt` passes through, anything else leaves
the `nil` zero value. -/
def liftStmt (v : Val) : Ast :=
  match v with
  | .node a => if isGoExpr a then .exprStmt a else if isGoStmt a then a else .nilA
  | _ => .nilA

/-- The map function of `statementList.Parse` (`[]interface{} → []ast.Stmt`). -/
def mkStatementList : Val → Val
  | .list vs => .stmtList (vs.map liftStmt)
  | _ => .null

/-- The map function of `IdentifierList`. -/
def mkIdentifierList : Val → Val
  | .list vs => .exprList (nodesOf vs)
  | .node (.ident s) => .exprList [.ident s]
  | _ => .null

/-- `var IdentifierList = Map(Choice(Parenthesized(OneOrMore(WhitespaceWrap(Ident))), Ident), ...)`. -/
def identifierListP (n : Nat) : OParser :=
  mapP (choiceP [parenthesized (oneOrMore n (whitespaceWrap n identP)), identP])
    mkIdentifierList

/-- The map function of `ExpressionList`. -/
def mkExpressionList : Val → Val
  | .list vs => .exprList (nodesOf vs)
  | .node (.ident s) => .exprList [.ident s]
  | .node (.basicLit k v) => .exprList [.basicLit k v]
  | _ => .null

/-- `var ExpressionList = Map(Choice(Parenthesized(OneOrMore(WhitespaceWrap(Expr))), Ident, basicLit()), ...)`. -/
def expressionListR (n : Nat) (r : Rules) : OParser :=
  mapP (choiceP [parenthesized (oneOrMore n (whitespaceWrap n r.expr)), identP, basicLitP n])
    mkExpressionList

/-- The map function shared by `Define` (`:=`) and `Assignment` (`=`). -/
def mkAssign (t : Tok) : Val → Val
  | .pair (.exprList lhs) (.exprList rhs) => .node (.assignStmt lhs t rhs)
  | _ => .null

/-- `var Define = Map(Parenthesized(Right(Literal("define"), ...)), ...)` —
the head is `Literal("define")` followed by mandatory whitespace. -/
def defineR (n : Nat) (r : Rules) : OParser :=
  mapP (parenthesized (rightP (literal "define")
    (pairP (rightP (oneOrMoreWS n) (identifierListP n))
      (rightP (oneOrMoreWS n) (expressionListR n r))))) (mkAssign .tDEFINE)

/-- `var Assignment = Map(Parenthesized(Right(Keyword("assign"), ...)), ...)`. -/
def assignmentR (n : Nat) (r : Rules) : OParser :=
  mapP (parenthesized (rightP (keywordP "assign")
    (pairP (whitespaceWrap n (identifierListP n)) (whitespaceWrap n (expressionListR n r)))))
    (mkAssign .tASSIGN)

/-- The map function of `DeclStmt`. -/
def mkDeclStmt : Val → Val
  | .pair (.node (.ident a)) (.node (.ident b)) => .node (.declStmt (.ident a) (.ident b))
  | _ => .null

/-- `var DeclStmt = Map(Parenthesized(Right(Keyword("var"), Pair(WhitespaceWrap(Ident), WhitespaceWrap(Ident)))), ...)`. -/
def declStmtR (n : Nat) : OParser :=
  mapP (parenthesized (rightP (keywordP "var")
    (pairP (whitespaceWrap n identP) (whitespaceWrap n identP)))) mkDeclStmt

/-- `var SimpleStmt = Choice(Define, Assignment, IncDecStmt, ExprStmt)`. -/
def simpleStmtR (n : Nat) (r : Rules) : OParser :=
  choiceP [defineR n r, assignmentR n r, incDecStmtR n r, exprStmtR r]

/-- The map function of `ForStmt` (downcasts of the four sequence slots). -/
def mkForStmt : Val → Val
  | .list [ini, cond, post, body] =>
    .node (.forStmt (nodeOf ini) (nodeOf cond) (nodeOf post) (nodeOf body))
  | _ => .null

/-- `var ForStmt = Map(Parenthesized(Right(Keyword("for"), Sequence(...))), ...)`. -/
def forStmtR (n : Nat) (r : Rules) : OParser :=
  mapP (parenthesized (rightP (keywordP "for") (sequenceP
    [whitespaceWrap n (simpleStmtR n r), whitespaceWrap n r.expr,
      whitespaceWrap n (simpleStmtR n r), whitespaceWrap n r.block]))) mkForStmt

/-- The map function of `IfStmt`: the optional else arm is kept only when the
payload is an `*ast.BlockStmt`. -/
def mkIfStmt : Val → Val
  | .pair (.node cond) (.pair bodyV elseV) =>
    .node (.ifStmt cond (nodeOf bodyV)
      (match elseV with
       | .node (.blockStmt l) => some (.blockStmt l)
       | _ => none))
  | _ => .null

/-- `var IfStmt = Map(Parenthesized(Right(Keyword("if"), ...)), ...)`. -/
def ifStmtR (n : Nat) (r : Rules) : OParser :=
  mapP (parenthesized (rightP (keywordP "if") (pairP (rightP (zeroOrMoreWS n) r.expr)
    (pairP (whitespaceWrap n r.block) (optionalP (whitespaceWrap n r.block)))))) mkIfStmt

/-- One iteration of the clause-collection loop in `ExprSwitchStmt`'s map
function: a bare block is a default clause (`CaseClause` with nil `List`,
modelled as `[]`), a pair is a `case` clause; other payloads are skipped. -/
def mkSwitchClause (v : Val) : Option Ast :=
  match v with
  | .node (.blockStmt l) => some (.caseClause [] l)
  | .pair (.exprList es) bv =>
    some (.caseClause es
      (match nodeOf bv with
       | .blockStmt l => l
       | _ => []))
  | _ => none

/-- The map function of `ExprSwitchStmt` (`SwitchStmt{Body: BlockStmt{clauses}}`,
modelled as `switchStmt clauses`). -/
def mkSwitch : Val → Val
  | .list vs => .node (.switchStmt (vs.filterMap mkSwitchClause))
  | _ => .null

/-- `var ExprSwitchStmt = Map(Parenthesized(Right(Keyword("switch"), ZeroOrMore(...))), ...)`. -/
def exprSwitchStmtR (n : Nat) (r : Rules) : OParser :=
  mapP (parenthesized (rightP (keywordP "switch") (zeroOrMore n (whitespaceWrap n (choiceP
    [parenthesized (rightP (keywordP "case")
        (pairP (whitespaceWrap n (expressionListR n r)) (whitespaceWrap n r.block))),
      parenthesized (rightP (keywordP "default") (whitespaceWrap n r.block))])))))
    mkSwitch

/-- `var Statement = Choice(ExprSwitchStmt, ForStmt, DeclStmt, IfStmt, SimpleStmt)`. -/
def statementR (n : Nat) (r : Rules) : OParser :=
  choiceP [exprSwitchStmtR n r, forStmtR n r, declStmtR n, ifStmtR n r, simpleStmtR n r]

/-- `statementList.Parse = Map(ZeroOrMore(WhitespaceWrap(Statement)), ...)`. -/
def statementListR (n : Nat) (r : Rules) : OParser :=
  mapP (zeroOrMore n (whitespaceWrap n (statementR n r))) mkStatementList

/-- The map function of `block.Parse`: a `[]ast.Stmt` payload becomes a
BlockStmt, a single `ast.Stmt` becomes a one-element BlockStmt, anything
else yields Go's `nil` (modelled `.null`). -/
def mkBlock : Val → Val
  | .stmtList l => .node (.blockStmt l)
  | .node a => if isGoStmt a then .node (.blockStmt [a]) else .null
  | _ => .null

/-- `block.Parse = Map(Choice(DoExpr, Statement), ...)`. -/
def blockR (n : Nat) (r : Rules) : OParser :=
  mapP (choiceP [doExprR r, statementR n r]) mkBlock

/-- The body of the `Expr` knot:
`Choice(basicLit(), BinaryExpr, UnaryExpr, Selector, CallExpr, OperandName)`. -/
def exprRules (n : Nat) (r : Rules) : OParser :=
  choiceP [basicLitP n, binaryExprR n r, unaryExprR r, selectorR n r, callExprR n r, operandName]

/-- Ties the recursive knot: each level resolves the deferred references
`Expr`, `StatementList` and `Block` one step, exactly as Go's pointer-backed
`Parse` methods do at run time; at fuel 0 a deferred call diverges. -/
def rules : Nat → Rules
  | 0 => { expr := fun _ => none, statementList := fun _ => none, block := fun _ => none }
  | n + 1 =>
    let r := rules n
    { expr := exprRules n r
      statementList := statementListR n r
      block := blockR n r }

/-- `Expr` with recursion depth `n`. -/
def exprTop (n : Nat) : OParser := (rules n).expr

/-- `Block` with recursion depth `n`. -/
def blockTop (n : Nat) : OParser := blockR n (rules n)

/-- `Statement` with recursion depth `n`. -/
def statementTop (n : Nat) : OParser := statementR n (rules n)

/-- `Selector` with recursion depth `n`. -/
def selectorTop (n : Nat) : OParser := selectorR n (rules n)

/-- `func Noop() ParserFunc` — succeeds consuming nothing, nil payload. -/
def noopP : OParser := fun input => some (.ok input .null)

/-- `func PackageClause() ParserFunc =
Parenthesized(Right(Literal("package"), Right(OneOrMoreWhitespaceChars(), Ident)))`. -/
def packageClauseP (n : Nat) : OParser :=
  parenthesized (rightP (literal "package") (rightP (oneOrMoreWS n) identP))

/-- The map function of `ImportDecl` (`GenDecl{IMPORT, one ImportSpec per
string literal}`, modelled as `importDecl paths`). -/
def mkImportDecl : Val → Val
  | .list vs => .node (.importDecl (nodesOf vs))
  | _ => .null

/-- `var ImportDecl = Map(Parenthesized(Right(Literal("import"),
OneOrMore(Right(OneOrMoreWhitespaceChars(), stringLit())))), ...)`. -/
def importDeclP (n : Nat) : OParser :=
  mapP (parenthesized (rightP (literal "import")
    (oneOrMore n (rightP (oneOrMoreWS n) (stringLitP n))))) mkImportDecl

/-- The map function of `FunctionDecl`. -/
def mkFuncDecl : Val → Val
  | .pair (.node name) (.stmtList body) => .node (.funcDecl name body)
  | _ => .null

/-- `var FunctionDecl = Map(Parenthesized(Right(Literal("func"),
Right(OneOrMoreWhitespaceChars(), Pair(Ident, Right(Right(ws, Parenthesized(Noop())),
WhitespaceWrap(StatementList)))))), ...)`. -/
def functionDeclP (n : Nat) (r : Rules) : OParser :=
  mapP (parenthesized (rightP (literal "func") (rightP (oneOrMoreWS n) (pairP identP
    (rightP (rightP (oneOrMoreWS n) (parenthesized noopP))
      (whitespaceWrap n r.statementList)))))) mkFuncDecl

/-- The map function of `structType.Parse` (one `Field{name, type}` per
parenthesised ident pair). -/
def mkStructType : Val → Val
  | .list vs => .node (.structType (vs.map (fun m =>
      match m with
      | .pair (.node a) (.node b) => Ast.field a b
      | _ => Ast.nilA)))
  | _ => .null

/-- `structType.Parse`: `Literal("struct")` followed by
`ZeroOrMore(Right(ZeroOrMoreWhitespaceChars(), Parenthesized(Pair(Ident, Right(ws, Ident)))))` —
note that NO whitespace is required directly after the atom; the rule
instead fails at the parenthesis checks when fused with an identifier. -/
def structTypeR (n : Nat) : OParser :=
  mapP (parenthesized (rightP (literal "struct")
    (zeroOrMore n (rightP (zeroOrMoreWS n)
      (parenthesized (pairP identP (rightP (oneOrMoreWS n) identP))))))) mkStructType

/-- The map function of `typeDecl.Parse`. -/
def mkTypeDecl : Val → Val
  | .pair (.node name) (.node ty) => .node (.typeDecl name ty)
  | _ => .null

/-- `typeDecl.Parse`: `(type IDENT StructType)`. -/
def typeDeclR (n : Nat) : OParser :=
  mapP (parenthesized (rightP (literal "type") (rightP (oneOrMoreWS n)
    (pairP identP (rightP (oneOrMoreWS n) (structTypeR n)))))) mkTypeDecl

end Jolang

namespace Jolang

/-- Does a parse result carry a non-nil error? -/
def isErrOf : Option PResult → Bool
  | some (.err _ _) => true
  | _ => false

/-- Does a parse result carry a success? -/
def resultOk : Option PResult → Bool
  | some (.ok _ _) => true
  | _ => false

/-- The cursor returned together with an error, if any. -/
def errCursor : Option PResult → Option Source
  | some (.err o _) => some o
  | _ => none

/-- The cursor returned together with a success, if any. -/
def okCursor : Option PResult → Option Source
  | some (.ok o _) => some o
  | _ => none

/-- A parser that, whenever it fails, hands the unchanged input cursor back
to its caller. -/
def NoConsume (p : OParser) : Prop :=
  ∀ s o e, p s = some (.err o e) → o = s

/-- The parsers built from the library's base parsers and combinators. -/
inductive Built : OParser → Prop where
  | lit (s : String) : Built (literal s)
  | rn (c : Char) : Built (runeP c)
  | anyC : Built anyChar
  | idC : Built identifier
  | pairC {p1 p2 : OParser} : Built p1 → Built p2 → Built (pairP p1 p2)
  | seqC {ps : List OParser} : (∀ p ∈ ps, Built p) → Built (sequenceP ps)
  | leftC {p1 p2 : OParser} : Built p1 → Built p2 → Built (leftP p1 p2)
  | rightC {p1 p2 : OParser} : Built p1 → Built p2 → Built (rightP p1 p2)
  | mapC {p : OParser} (f : Val → Val) : Built p → Built (mapP p f)
  | predC {p : OParser} (f : Val → Bool) : Built p → Built (predP p f)
  | choiceC {ps : List OParser} : (∀ p ∈ ps, Built p) → Built (choiceP ps)
  | oneC {p : OParser} (fuel : Nat) : Built p → Built (oneOrMore fuel p)
  | zeroC {p : OParser} (fuel : Nat) : Built p → Built (zeroOrMore fuel p)
  | optC {p : OParser} : Built p → Built (optionalP p)

/-- A parser whose successes keep the same content, never move the offset
backwards, and never move it past the end of the input. -/
def OkBounded (p : OParser) : Prop :=
  ∀ s o v, s.offset ≤ s.content.length → p s = some (.ok o v) →
    o.content = s.content ∧ s.offset ≤ o.offset ∧ o.offset ≤ s.content.length

/-- Modelled from the spec's words for the `Selector` fold step: an
identifier suffix `si` turns the accumulator `acc` into
`SelectorExpr{X: acc, Sel: si}`; a parenthesised call suffix turns `acc`
into `CallExpr{Fun: SelectorExpr{X: acc, Sel: f}, Args}`; the whole fold is
`List.foldl` of this step with `Base` as initial accumulator.  (On suffix
payload shapes the grammar never produces, the accumulator is returned
unchanged, as in the source's type switch.) -/
def selStepSpec (acc : Ast) (v : Val) : Ast :=
  match v with
  | .node (.ident s) => .selectorExpr acc (.ident s)
  | .selCall f args => .callExpr (.selectorExpr acc f) args
  | _ => acc

theorem literal_noConsume (t : String) : NoConsume (literal t) := by
  intro s o e h
  unfold literal at h
  split at h
  · simp at h
  · simp only [Option.some.injEq, PResult.err.injEq] at h
    exact h.1.symm

theorem identifier_noConsume : NoConsume identifier := by
  intro s o e h
  unfold identifier at h
  split at h
  · simp at h
  · split at h
    · simp at h
    · simp only [Option.some.injEq, PResult.err.injEq] at h
      exact h.1.symm

theorem anyChar_noConsume : NoConsume anyChar := by
  intro s o e h
  unfold anyChar at h
  split at h
  · split at h <;>
      (simp only [Option.some.injEq, PResult.err.injEq] at h; exact h.1.symm)
  · simp at h

theorem runeP_noConsume (c : Char) : NoConsume (runeP c) := by
  intro s o e h
  unfold runeP at h
  split at h
  · split at h <;>
      (simp only [Option.some.injEq, PResult.err.injEq] at h; exact h.1.symm)
  · split at h
    · simp at h
    · simp only [Option.some.injEq, PResult.err.injEq] at h
      exact h.1.symm

theorem pairP_noConsume (p1 p2 : OParser) : NoConsume (pairP p1 p2) := by
  intro s o e h
  unfold pairP at h
  cases h1 : p1 s with
  | none => simp [h1] at h
  | some r1 =>
    cases r1 with
    | err o1 e1 =>
      simp only [h1] at h
      simp only [Option.some.injEq, PResult.err.injEq] at h
      exact h.1.symm
    | ok o1 v1 =>
      simp only [h1] at h
      cases h2 : p2 o1 with
      | none => simp [h2] at h
      | some r2 =>
        cases r2 with
        | err o2 e2 =>
          simp only [h2] at h
          simp only [Option.some.injEq, PResult.err.injEq] at h
          exact h.1.symm
        | ok o2 v2 => simp [h2] at h

theorem sequenceP_noConsume (ps : List OParser) : NoConsume (sequenceP ps) := by
  intro s o e h
  unfold sequenceP at h
  cases ha : sequenceAux ps s [] with
  | none => simp [ha] at h
  | some r =>
    cases r with
    | error e2 =>
      simp only [ha] at h
      simp only [Option.some.injEq, PResult.err.injEq] at h
      exact h.1.symm
    | ok pr => simp [ha] at h

theorem leftP_noConsume (p1 p2 : OParser) : NoConsume (leftP p1 p2) := by
  intro s o e h
  unfold leftP at h
  cases hp : pairP p1 p2 s with
  | none => simp [hp] at h
  | some r =>
    cases r with
    | ok o2 v => simp [hp] at h
    | err o2 e2 =>
      simp only [hp] at h
      simp only [Option.some.injEq, PResult.err.injEq] at h
      exact h.1.symm.trans (pairP_noConsume p1 p2 s o2 e2 hp)

theorem rightP_noConsume (p1 p2 : OParser) : NoConsume (rightP p1 p2) := by
  intro s o e h
  unfold rightP at h
  cases hp : pairP p1 p2 s with
  | none => simp [hp] at h
  | some r =>
    cases r with
    | ok o2 v => simp [hp] at h
    | err o2 e2 =>
      simp only [hp] at h
      simp only [Option.some.injEq, PResult.err.injEq] at h
      exact h.1.symm.trans (pairP_noConsume p1 p2 s o2 e2 hp)

theorem mapP_noConsume {p : OParser} (f : Val → Val) (hp : NoConsume p) :
    NoConsume (mapP p f) := by
  intro s o e h
  unfold mapP at h
  cases h1 : p s with
  | none => simp [h1] at h
  | some r =>
    cases r with
    | ok o1 v1 => simp [h1] at h
    | err o1 e1 =>
      simp only [h1] at h
      simp only [Option.some.injEq, PResult.err.injEq] at h
      exact h.1.symm.trans (hp s o1 e1 h1)

theorem predP_noConsume (p : OParser) (f : Val → Bool) : NoConsume (predP p f) := by
  intro s o e h
  unfold predP at h
  cases h1 : p s with
  | none => simp [h1] at h
  | some r =>
    cases r with
    | err o1 e1 =>
      simp only [h1] at h
      simp only [Option.some.injEq, PResult.err.injEq] at h
      exact h.1.symm
    | ok o1 v1 =>
      simp only [h1] at h
      split at h
      · simp at h
      · simp only [Option.some.injEq, PResult.err.injEq] at h
        exact h.1.symm

theorem choiceGo_err_cursor (input : Source) :
    ∀ (ps : List OParser) o e, choiceGo input ps = some (.err o e) → o = input := by
  intro ps
  induction ps with
  | nil => intro o e h; simp [choiceGo] at h
  | cons p rest ih =>
    intro o e h
    unfold choiceGo at h
    cases h1 : p input with
    | none => simp [h1] at h
    | some r =>
      cases r with
      | ok o1 v1 => simp [h1] at h
      | err o1 e1 =>
        simp only [h1] at h
        cases rest with
        | nil =>
          simp only [Option.some.injEq, PResult.err.injEq] at h
          exact h.1.symm
        | cons q qs => exact ih o e h

theorem choiceP_noConsume (ps : List OParser) : NoConsume (choiceP ps) := by
  intro s o e h
  exact choiceGo_err_cursor s ps o e h

theorem optionalP_no_err (p : OParser) : ∀ s o e, optionalP p s ≠ some (.err o e) := by
  intro s o e h
  unfold optionalP at h
  cases h1 : p s with
  | none => simp [h1] at h
  | some r => cases r with
    | err o1 e1 => simp [h1] at h
    | ok o1 v1 => simp [h1] at h

/-- The repetition loop only ever returns successes carrying a list payload. -/
theorem repLoop_ok (p : OParser) :
    ∀ fuel s acc r, repLoop p fuel s acc = some r → ∃ o vs, r = .ok o (.list vs) := by
  intro fuel
  induction fuel with
  | zero => intro s acc r h; simp [repLoop] at h
  | succ n ih =>
    intro s acc r h
    unfold repLoop at h
    split at h
    · exact ⟨s, acc, by simpa using h.symm⟩
    · cases h1 : p s with
      | none => simp [h1] at h
      | some r1 =>
        cases r1 with
        | err o1 e1 => exact ⟨o1, acc, by simp [h1] at h; exact h.symm⟩
        | ok o1 v1 =>
          simp only [h1] at h
          exact ih o1 (acc ++ [v1]) r h

theorem zeroOrMore_no_err (fuel : Nat) (p : OParser) :
    ∀ s o e, zeroOrMore fuel p s ≠ some (.err o e) := by
  intro s o e h
  obtain ⟨o2, vs, hr⟩ := repLoop_ok p fuel s [] (.err o e) h
  exact PResult.noConfusion hr

theorem oneOrMore_noConsume {p : OParser} (fuel : Nat) (hp : NoConsume p) :
    NoConsume (oneOrMore fuel p) := by
  intro s o e h
  unfold oneOrMore at h
  cases h1 : p s with
  | none => simp [h1] at h
  | some r =>
    cases r with
    | err o1 e1 =>
      simp only [h1] at h
      simp only [Option.some.injEq, PResult.err.injEq] at h
      exact h.1.symm.trans (hp s o1 e1 h1)
    | ok o1 v1 =>
      simp only [h1] at h
      obtain ⟨o2, vs, hr⟩ := repLoop_ok p fuel o1 [v1] (.err o e) h
      exact PResult.noConfusion hr

/-- Every parser built from the library's combinators hands the unchanged
input cursor back on failure. -/
theorem built_noConsume {p : OParser} (hb : Built p) : NoConsume p := by
  induction hb with
  | lit s => exact literal_noConsume s
  | rn c => exact runeP_noConsume c
  | anyC => exact anyChar_noConsume
  | idC => exact identifier_noConsume
  | pairC h1 h2 ih1 ih2 => exact pairP_noConsume _ _
  | seqC hs ih => exact sequenceP_noConsume _
  | leftC h1 h2 ih1 ih2 => exact leftP_noConsume _ _
  | rightC h1 h2 ih1 ih2 => exact rightP_noConsume _ _
  | mapC f hp ih => exact mapP_noConsume f ih
  | predC f hp ih => exact predP_noConsume _ f
  | choiceC hs ih => exact choiceP_noConsume _
  | oneC fuel hp ih => exact oneOrMore_noConsume fuel ih
  | zeroC fuel hp ih => exact fun s o e h => absurd h (zeroOrMore_no_err fuel _ s o e)
  | optC hp ih => exact fun s o e h => absurd h (optionalP_no_err _ s o e)

end Jolang

namespace Jolang

theorem advance_bounds (s : Source) (n : Nat) (h : s.offset ≤ s.content.length) :
    (s.advance n).content = s.content ∧ s.offset ≤ (s.advance n).offset ∧
      (s.advance n).offset ≤ s.content.length := by
  unfold Source.advance
  split
  · exact ⟨rfl, h, Nat.le_refl _⟩
  · next hlt =>
    refine ⟨rfl, Nat.le_add_right _ _, ?_⟩
    show s.offset + n ≤ s.content.length
    omega

/-- `Advance` clamps the offset at the input length whenever the requested
advance would reach or pass the end. -/
theorem advance_clamps (s : Source) (n : Nat) (h : s.content.length ≤ n + s.offset) :
    (s.advance n).offset = s.content.length := by
  unfold Source.advance
  split
  · rfl
  · next hlt => omega

theorem literal_okBounds (t : String) : OkBounded (literal t) := by
  intro s o v hoff h
  unfold literal at h
  split at h
  · simp only [Option.some.injEq, PResult.ok.injEq] at h
    obtain ⟨ho, hv⟩ := h
    subst ho
    exact advance_bounds s t.length hoff
  · simp at h

theorem identifier_okBounds : OkBounded identifier := by
  intro s o v hoff h
  unfold identifier at h
  split at h
  · simp only [Option.some.injEq, PResult.ok.injEq] at h
    obtain ⟨ho, hv⟩ := h
    subst ho
    exact advance_bounds s 0 hoff
  · split at h
    · simp only [Option.some.injEq, PResult.ok.injEq] at h
      obtain ⟨ho, hv⟩ := h
      subst ho
      exact advance_bounds s _ hoff
    · simp at h

theorem anyChar_okBounds : OkBounded anyChar := by
  intro s o v hoff h
  unfold anyChar at h
  split at h
  · split at h <;> simp at h
  · simp only [Option.some.injEq, PResult.ok.injEq] at h
    obtain ⟨ho, hv⟩ := h
    subst ho
    exact advance_bounds s _ hoff

theorem runeP_okBounds (c : Char) : OkBounded (runeP c) := by
  intro s o v hoff h
  unfold runeP at h
  split at h
  · split at h <;> simp at h
  · split at h
    · simp only [Option.some.injEq, PResult.ok.injEq] at h
      obtain ⟨ho, hv⟩ := h
      subst ho
      exact advance_bounds s _ hoff
    · simp at h

theorem pairP_okBounds {p1 p2 : OParser} (h1 : OkBounded p1) (h2 : OkBounded p2) :
    OkBounded (pairP p1 p2) := by
  intro s o v hoff h
  unfold pairP at h
  cases e1 : p1 s with
  | none => simp [e1] at h
  | some r1 =>
    cases r1 with
    | err o1 e1' => simp [e1] at h
    | ok o1 v1 =>
      simp only [e1] at h
      cases e2 : p2 o1 with
      | none => simp [e2] at h
      | some r2 =>
        cases r2 with
        | err o2 e2' => simp [e2] at h
        | ok o2 v2 =>
          simp only [e2, Option.some.injEq, PResult.ok.injEq] at h
          obtain ⟨ho, hv⟩ := h
          subst ho
          obtain ⟨hc1, hl1, hr1⟩ := h1 s o1 v1 hoff e1
          obtain ⟨hc2, hl2, hr2⟩ := h2 o1 o2 v2 (by rw [hc1]; exact hr1) e2
          refine ⟨hc2.trans hc1, hl1.trans hl2, ?_⟩
          rw [hc1] at hr2
          exact hr2

theorem sequenceAux_okBounds (ps : List OParser) (hps : ∀ p ∈ ps, OkBounded p) :
    ∀ s acc r ms2, s.offset ≤ s.content.length →
      sequenceAux ps s acc = some (.ok (r, ms2)) →
      r.content = s.content ∧ s.offset ≤ r.offset ∧ r.offset ≤ s.content.length := by
  induction ps with
  | nil =>
    intro s acc r ms2 hoff h
    simp only [sequenceAux, Option.some.injEq, Except.ok.injEq, Prod.mk.injEq] at h
    obtain ⟨hr, _⟩ := h
    subst hr
    exact ⟨rfl, Nat.le_refl _, hoff⟩
  | cons p rest ih =>
    intro s acc r ms2 hoff h
    unfold sequenceAux at h
    cases e1 : p s with
    | none => simp [e1] at h
    | some r1 =>
      cases r1 with
      | err o1 e1' => simp [e1] at h
      | ok o1 v1 =>
        simp only [e1] at h
        obtain ⟨hc1, hl1, hr1⟩ := hps p (List.mem_cons_self p rest) s o1 v1 hoff e1
        obtain ⟨hc2, hl2, hr2⟩ :=
          ih (fun q hq => hps q (List.mem_cons_of_mem p hq)) o1 (acc ++ [v1]) r ms2
            (by rw [hc1]; exact hr1) h
        refine ⟨hc2.trans hc1, hl1.trans hl2, ?_⟩
        rw [hc1] at hr2
        exact hr2

theorem sequenceP_okBounds {ps : List OParser} (hps : ∀ p ∈ ps, OkBounded p) :
    OkBounded (sequenceP ps) := by
  intro s o v hoff h
  unfold sequenceP at h
  cases ha : sequenceAux ps s [] with
  | none => simp [ha] at h
  | some r =>
    cases r with
    | error e2 => simp [ha] at h
    | ok pr =>
      simp only [ha, Option.some.injEq, PResult.ok.injEq] at h
      obtain ⟨ho, _⟩ := h
      subst ho
      exact sequenceAux_okBounds ps hps s [] pr.1 pr.2 hoff (by rw [ha])

theorem leftP_okBounds {p1 p2 : OParser} (h1 : OkBounded p1) (h2 : OkBounded p2) :
    OkBounded (leftP p1 p2) := by
  intro s o v hoff h
  unfold leftP at h
  cases hp : pairP p1 p2 s with
  | none => simp [hp] at h
  | some r =>
    cases r with
    | err o2 e2 => simp [hp] at h
    | ok o2 v2 =>
      simp only [hp, Option.some.injEq, PResult.ok.injEq] at h
      obtain ⟨ho, _⟩ := h
      subst ho
      exact pairP_okBounds h1 h2 s o2 v2 hoff hp

theorem rightP_okBounds {p1 p2 : OParser} (h1 : OkBounded p1) (h2 : OkBounded p2) :
    OkBounded (rightP p1 p2) := by
  intro s o v hoff h
  unfold rightP at h
  cases hp : pairP p1 p2 s with
  | none => simp [hp] at h
  | some r =>
    cases r with
    | err o2 e2 => simp [hp] at h
    | ok o2 v2 =>
      simp only [hp, Option.some.injEq, PResult.ok.injEq] at h
      obtain ⟨ho, _⟩ := h
      subst ho
      exact pairP_okBounds h1 h2 s o2 v2 hoff hp

theorem mapP_okBounds {p : OParser} (f : Val → Val) (hp : OkBounded p) :
    OkBounded (mapP p f) := by
  intro s o v hoff h
  unfold mapP at h
  cases e1 : p s with
  | none => simp [e1] at h
  | some r1 =>
    cases r1 with
    | err o1 e1' => simp [e1] at h
    | ok o1 v1 =>
      simp only [e1, Option.some.injEq, PResult.ok.injEq] at h
      obtain ⟨ho, _⟩ := h
      subst ho
      exact hp s o1 v1 hoff e1

theorem predP_okBounds {p : OParser} (f : Val → Bool) (hp : OkBounded p) :
    OkBounded (predP p f) := by
  intro s o v hoff h
  unfold predP at h
  cases e1 : p s with
  | none => simp [e1] at h
  | some r1 =>
    cases r1 with
    | err o1 e1' => simp [e1] at h
    | ok o1 v1 =>
      simp only [e1] at h
      split at h
      · simp only [Option.some.injEq, PResult.ok.injEq] at h
        obtain ⟨ho, _⟩ := h
        subst ho
        exact hp s o1 v1 hoff e1
      · simp at h

theorem choiceGo_okBounds (input : Source) (hoff : input.offset ≤ input.content.length) :
    ∀ (ps : List OParser), (∀ p ∈ ps, OkBounded p) →
    ∀ o v, choiceGo input ps = some (.ok o v) →
      o.content = input.content ∧ input.offset ≤ o.offset ∧ o.offset ≤ input.content.length := by
  intro ps
  induction ps with
  | nil =>
    intro _ o v h
    simp only [choiceGo, Option.some.injEq, PResult.ok.injEq] at h
    obtain ⟨ho, _⟩ := h
    subst ho
    exact ⟨rfl, Nat.le_refl _, hoff⟩
  | cons p rest ih =>
    intro hps o v h
    unfold choiceGo at h
    cases e1 : p input with
    | none => simp [e1] at h
    | some r1 =>
      cases r1 with
      | ok o1 v1 =>
        simp only [e1, Option.some.injEq, PResult.ok.injEq] at h
        obtain ⟨ho, _⟩ := h
        subst ho
        exact hps p (List.mem_cons_self p rest) input o1 v1 hoff e1
      | err o1 e1' =>
        simp only [e1] at h
        cases rest with
        | nil => simp at h
        | cons q qs =>
          exact ih (fun q2 hq => hps q2 (List.mem_cons_of_mem p hq)) o v h

theorem choiceP_okBounds {ps : List OParser} (hps : ∀ p ∈ ps, OkBounded p) :
    OkBounded (choiceP ps) := by
  intro s o v hoff h
  exact choiceGo_okBounds s hoff ps hps o v h

theorem optionalP_okBounds {p : OParser} (hp : OkBounded p) : OkBounded (optionalP p) := by
  intro s o v hoff h
  unfold optionalP at h
  cases e1 : p s with
  | none => simp [e1] at h
  | some r1 =>
    cases r1 with
    | err o1 e1' =>
      simp only [e1, Option.some.injEq, PResult.ok.injEq] at h
      obtain ⟨ho, _⟩ := h
      subst ho
      exact ⟨rfl, Nat.le_refl _, hoff⟩
    | ok o1 v1 =>
      simp only [e1, Option.some.injEq, PResult.ok.injEq] at h
      obtain ⟨ho, _⟩ := h
      subst ho
      exact hp s o1 v1 hoff e1

theorem repLoop_okBounds {p : OParser} (hb : OkBounded p) (hnc : NoConsume p) :
    ∀ fuel s acc o v, s.offset ≤ s.content.length →
      repLoop p fuel s acc = some (.ok o v) →
      o.content = s.content ∧ s.offset ≤ o.offset ∧ o.offset ≤ s.content.length := by
  intro fuel
  induction fuel with
  | zero => intro s acc o v hoff h; simp [repLoop] at h
  | succ n ih =>
    intro s acc o v hoff h
    unfold repLoop at h
    split at h
    · simp only [Option.some.injEq, PResult.ok.injEq] at h
      obtain ⟨ho, _⟩ := h
      subst ho
      exact ⟨rfl, Nat.le_refl _, hoff⟩
    · cases e1 : p s with
      | none => simp [e1] at h
      | some r1 =>
        cases r1 with
        | err o1 e1' =>
          simp only [e1, Option.some.injEq, PResult.ok.injEq] at h
          obtain ⟨ho, _⟩ := h
          subst ho
          have ho1 : o1 = s := hnc s o1 e1' e1
          subst ho1
          exact ⟨rfl, Nat.le_refl _, hoff⟩
        | ok o1 v1 =>
          simp only [e1] at h
          obtain ⟨hc1, hl1, hr1⟩ := hb s o1 v1 hoff e1
          obtain ⟨hc2, hl2, hr2⟩ := ih o1 (acc ++ [v1]) o v (by rw [hc1]; exact hr1) h
          refine ⟨hc2.trans hc1, hl1.trans hl2, ?_⟩
          rw [hc1] at hr2
          exact hr2

theorem zeroOrMore_okBounds {p : OParser} (fuel : Nat) (hb : OkBounded p)
    (hnc : NoConsume p) : OkBounded (zeroOrMore fuel p) := by
  intro s o v hoff h
  exact repLoop_okBounds hb hnc fuel s [] o v hoff h

theorem oneOrMore_okBounds {p : OParser} (fuel : Nat) (hb : OkBounded p)
    (hnc : NoConsume p) : OkBounded (oneOrMore fuel p) := by
  intro s o v hoff h
  unfold oneOrMore at h
  cases e1 : p s with
  | none => simp [e1] at h
  | some r1 =>
    cases r1 with
    | err o1 e1' => simp [e1] at h
    | ok o1 v1 =>
      simp only [e1] at h
      obtain ⟨hc1, hl1, hr1⟩ := hb s o1 v1 hoff e1
      obtain ⟨hc2, hl2, hr2⟩ :=
        repLoop_okBounds hb hnc fuel o1 [v1] o v (by rw [hc1]; exact hr1) h
      refine ⟨hc2.trans hc1, hl1.trans hl2, ?_⟩
      rw [hc1] at hr2
      exact hr2

/-- Every parser built from the library's combinators keeps the content,
never moves the offset backwards on success, and never moves it past the
end of the input. -/
theorem built_okBounds {p : OParser} (hb : Built p) : OkBounded p := by
  induction hb with
  | lit s => exact literal_okBounds s
  | rn c => exact runeP_okBounds c
  | anyC => exact anyChar_okBounds
  | idC => exact identifier_okBounds
  | pairC h1 h2 ih1 ih2 => exact pairP_okBounds ih1 ih2
  | seqC hs ih => exact sequenceP_okBounds ih
  | leftC h1 h2 ih1 ih2 => exact leftP_okBounds ih1 ih2
  | rightC h1 h2 ih1 ih2 => exact rightP_okBounds ih1 ih2
  | mapC f hp ih => exact mapP_okBounds f ih
  | predC f hp ih => exact predP_okBounds f ih
  | choiceC hs ih => exact choiceP_okBounds ih
  | oneC fuel hp ih => exact oneOrMore_okBounds fuel ih (built_noConsume hp)
  | zeroC fuel hp ih => exact zeroOrMore_okBounds fuel ih (built_noConsume hp)
  | optC hp ih => exact optionalP_okBounds ih

end Jolang

namespace Jolang

theorem isSome_ne_none {x : Option PResult} (h : x.isSome = true) : x ≠ none := by
  intro he
  rw [he] at h
  exact Bool.noConfusion h

theorem selFoldGo_cons (acc : Ast) (v : Val) (rest : List Val) :
    selFoldGo acc (v :: rest) = selFoldGo (selStepSpec acc v) rest := by
  cases v with
  | node a => cases a <;> rfl
  | null => rfl
  | str s => rfl
  | ch c => rfl
  | tok t => rfl
  | pair l r => rfl
  | list vs => rfl
  | selCall f args => rfl
  | stmtList l => rfl
  | exprList l => rfl

/-- Termination of the repetition loop: if `p` never diverges, strictly
advances the offset on every success from an unfinished cursor, and keeps
the content, then fuel exceeding the unread length suffices. -/
theorem repLoop_total {p : OParser} (htot : ∀ s, p s ≠ none)
    (hadv : ∀ s o v, s.finished = false → p s = some (.ok o v) → s.offset < o.offset)
    (hcont : ∀ s o v, p s = some (.ok o v) → o.content = s.content) :
    ∀ fuel s acc, s.content.length - s.offset < fuel → repLoop p fuel s acc ≠ none := by
  intro fuel
  induction fuel with
  | zero => intro s acc hlt; exact absurd hlt (Nat.not_lt_zero _)
  | succ n ih =>
    intro s acc hlt h
    unfold repLoop at h
    split at h
    · exact Option.noConfusion h
    · next hfin =>
      cases e1 : p s with
      | none => exact htot s e1
      | some r1 =>
        cases r1 with
        | err o1 e1' => simp [e1] at h
        | ok o1 v1 =>
          simp only [e1] at h
          have hfinb : s.finished = false := by
            cases hf : s.finished
            · rfl
            · exact absurd hf hfin
          have hofflt : s.offset < s.content.length := by
            unfold Source.finished at hfinb
            have := of_decide_eq_false hfinb
            omega
          have hstep := hadv s o1 v1 hfinb e1
          have hcon := hcont s o1 v1 e1
          refine ih o1 (acc ++ [v1]) ?_ h
          rw [hcon]
          omega

theorem zeroOrMore_total {p : OParser} (htot : ∀ s, p s ≠ none)
    (hadv : ∀ s o v, s.finished = false → p s = some (.ok o v) → s.offset < o.offset)
    (hcont : ∀ s o v, p s = some (.ok o v) → o.content = s.content)
    (fuel : Nat) (s : Source) (hfuel : s.content.length < fuel) :
    zeroOrMore fuel p s ≠ none := by
  unfold zeroOrMore
  exact repLoop_total htot hadv hcont fuel s [] (by omega)

theorem oneOrMore_total {p : OParser} (htot : ∀ s, p s ≠ none)
    (hadv : ∀ s o v, s.finished = false → p s = some (.ok o v) → s.offset < o.offset)
    (hcont : ∀ s o v, p s = some (.ok o v) → o.content = s.content)
    (fuel : Nat) (s : Source) (hfuel : s.content.length < fuel) :
    oneOrMore fuel p s ≠ none := by
  unfold oneOrMore
  cases e1 : p s with
  | none => exact absurd e1 (htot s)
  | some r1 =>
    cases r1 with
    | err o1 e1' => simp
    | ok o1 v1 =>
      have hcon := hcont s o1 v1 e1
      refine repLoop_total htot hadv hcont fuel o1 [v1] ?_
      rw [hcon]
      omega

/-- When the next alternative of `Choice` is the first success found by
`find?`, the loop returns exactly that alternative's whole result. -/
theorem choiceGo_find (input : Source) :
    ∀ (ps : List OParser), (∀ p ∈ ps, p input ≠ none) →
      ∀ p, ps.find? (fun q => resultOk (q input)) = some p → choiceGo input ps = p input := by
  intro ps
  induction ps with
  | nil => intro _ p hf; simp at hf
  | cons q rest ih =>
    intro hterm p hf
    cases e1 : q input with
    | none => exact absurd e1 (hterm q (List.mem_cons_self q rest))
    | some r1 =>
      cases r1 with
      | ok o1 v1 =>
        have hok : resultOk (q input) = true := by rw [e1]; rfl
        simp only [List.find?, hok] at hf
        have hq : q = p := by simpa using hf
        subst hq
        unfold choiceGo
        rw [e1]
      | err o1 e1' =>
        have hok : resultOk (q input) = false := by rw [e1]; rfl
        simp only [List.find?, hok] at hf
        have hrec : choiceGo input (q :: rest) = choiceGo input rest := by
          cases rest with
          | nil => simp at hf
          | cons q2 qs =>
            unfold choiceGo
            rw [e1]
            rfl
        rw [hrec]
        exact ih (fun p2 hp2 => hterm p2 (List.mem_cons_of_mem q hp2)) p hf

/-- When every alternative fails, `Choice` returns the error of the last
alternative, with the original input cursor. -/
theorem choiceGo_allFail (input : Source) :
    ∀ (ps : List OParser), ps ≠ [] → (∀ p ∈ ps, isErrOf (p input) = true) →
      ∃ plast o e, ps.getLast? = some plast ∧ plast input = some (.err o e) ∧
        choiceGo input ps = some (.err input e) := by
  intro ps
  induction ps with
  | nil => intro hne _; exact absurd rfl hne
  | cons q rest ih =>
    intro _ hfail
    have hqerr : isErrOf (q input) = true := hfail q (List.mem_cons_self q rest)
    cases e1 : q input with
    | none => rw [e1] at hqerr; simp [isErrOf] at hqerr
    | some r1 =>
      cases r1 with
      | ok o1 v1 => rw [e1] at hqerr; simp [isErrOf] at hqerr
      | err o1 e1' =>
        cases rest with
        | nil =>
          refine ⟨q, o1, e1', rfl, e1, ?_⟩
          unfold choiceGo
          rw [e1]
        | cons q2 qs =>
          obtain ⟨plast, o2, e2, hlast, hperr, hloop⟩ :=
            ih (List.cons_ne_nil q2 qs) (fun p hp => hfail p (List.mem_cons_of_mem q hp))
          refine ⟨plast, o2, e2, ?_, hperr, ?_⟩
          · rw [List.getLast?_cons_cons]
            exact hlast
          · unfold choiceGo
            rw [e1]
            exact hloop

/-- A nonempty `Choice` succeeds exactly when some alternative succeeds
(given that every alternative terminates on this input). -/
theorem choiceGo_ok_iff (input : Source) :
    ∀ (ps : List OParser), ps ≠ [] → (∀ p ∈ ps, p input ≠ none) →
      (resultOk (choiceGo input ps) = true ↔ ∃ p ∈ ps, resultOk (p input) = true) := by
  intro ps
  induction ps with
  | nil => intro hne; exact absurd rfl hne
  | cons q rest ih =>
    intro _ hterm
    cases e1 : q input with
    | none => exact absurd e1 (hterm q (List.mem_cons_self q rest))
    | some r1 =>
      cases r1 with
      | ok o1 v1 =>
        have hgo : choiceGo input (q :: rest) = some (.ok o1 v1) := by
          unfold choiceGo
          rw [e1]
        rw [hgo]
        constructor
        · intro _
          exact ⟨q, List.mem_cons_self q rest, by rw [e1]; rfl⟩
        · intro _
          rfl
      | err o1 e1' =>
        cases rest with
        | nil =>
          have hgo : choiceGo input [q] = some (.err input e1') := by
            unfold choiceGo
            rw [e1]
          rw [hgo]
          constructor
          · intro hfalse
            exact absurd hfalse (by simp [resultOk])
          · rintro ⟨p, hp, hpok⟩
            rcases List.mem_cons.mp hp with rfl | habs
            · rw [e1] at hpok
              exact absurd hpok (by simp [resultOk])
            · exact absurd habs (List.not_mem_nil p)
        | cons q2 qs =>
          have hgo : choiceGo input (q :: q2 :: qs) = choiceGo input (q2 :: qs) := by
            unfold choiceGo
            rw [e1]
            rfl
          rw [hgo,
            ih (List.cons_ne_nil q2 qs) (fun p2 hp2 => hterm p2 (List.mem_cons_of_mem q hp2))]
          constructor
          · rintro ⟨p, hp, hpok⟩
            exact ⟨p, List.mem_cons_of_mem q hp, hpok⟩
          · rintro ⟨p, hp, hpok⟩
            rcases List.mem_cons.mp hp with rfl | hp2
            · rw [e1] at hpok
              exact absurd hpok (by simp [resultOk])
            · exact ⟨p, hp2, hpok⟩

end Jolang

namespace Jolang

theorem isErrOf_of_err {p : OParser} {s o : Source} {e : ParseError}
    (h : p s = some (.err o e)) : isErrOf (p s) = true := by
  rw [h]
  rfl

theorem errs_of_isErrOf {p : OParser} {s : Source} (h : isErrOf (p s) = true) :
    ∃ o e, p s = some (.err o e) := by
  cases hr : p s with
  | none => rw [hr] at h; simp [isErrOf] at h
  | some r =>
    cases r with
    | ok o v => rw [hr] at h; simp [isErrOf] at h
    | err o e => exact ⟨o, e, rfl⟩

theorem pairP_errs_first {p1 p2 : OParser} {s : Source}
    (h : isErrOf (p1 s) = true) : ∃ e, pairP p1 p2 s = some (.err s e) := by
  obtain ⟨o, e, hr⟩ := errs_of_isErrOf h
  refine ⟨e, ?_⟩
  unfold pairP
  simp only [hr]

theorem pairP_errs_second {p1 p2 : OParser} {s o : Source} {v : Val}
    (h1 : p1 s = some (.ok o v)) (h2 : isErrOf (p2 o) = true) :
    ∃ e, pairP p1 p2 s = some (.err s e) := by
  obtain ⟨o2, e, hr⟩ := errs_of_isErrOf h2
  refine ⟨e, ?_⟩
  unfold pairP
  simp only [h1, hr]

theorem rightP_errs {p1 p2 : OParser} {s : Source} {e : ParseError}
    (h : pairP p1 p2 s = some (.err s e)) : rightP p1 p2 s = some (.err s e) := by
  unfold rightP
  simp only [h]

theorem leftP_errs {p1 p2 : OParser} {s : Source} {e : ParseError}
    (h : pairP p1 p2 s = some (.err s e)) : leftP p1 p2 s = some (.err s e) := by
  unfold leftP
  simp only [h]

theorem rightP_ok_of {p1 p2 : OParser} {s o o2 : Source} {v v2 : Val}
    (h1 : p1 s = some (.ok o v)) (h2 : p2 o = some (.ok o2 v2)) :
    rightP p1 p2 s = some (.ok o2 v2) := by
  have hp : pairP p1 p2 s = some (.ok o2 (.pair v v2)) := by
    unfold pairP
    simp only [h1, h2]
  unfold rightP
  simp only [hp]
  rfl

theorem mapP_errs {p : OParser} {f : Val → Val} {s o : Source} {e : ParseError}
    (h : p s = some (.err o e)) : mapP p f s = some (.err o e) := by
  unfold mapP
  simp only [h]

theorem mapP_isErr {p : OParser} {f : Val → Val} {s : Source}
    (h : isErrOf (p s) = true) : isErrOf (mapP p f s) = true := by
  obtain ⟨o, e, hr⟩ := errs_of_isErrOf h
  exact isErrOf_of_err (mapP_errs hr)

theorem oneOrMore_errs {p : OParser} {n : Nat} {s o : Source} {e : ParseError}
    (h : p s = some (.err o e)) : oneOrMore n p s = some (.err o e) := by
  unfold oneOrMore
  simp only [h]

/-- `WhitespaceChar` fails (returning the input cursor) whenever the next
rune is not whitespace; both the invalid-rune and failed-predicate branches
are failures. -/
theorem whitespaceChar_fails {s : Source} {c : Char} {rest : List Char}
    (h : s.remaining = c :: rest) (hws : c.isWhitespace = false) :
    ∃ e, whitespaceChar s = some (.err s e) := by
  have hpk : s.peekRune = (c, 1) := by
    unfold Source.peekRune
    rw [h]
  by_cases hc : c = runeError
  · have ha : anyChar s = some (.err s
        { offset := s.offset, message := "wanted any character, got invalid UTF-8 encoding" }) := by
      unfold anyChar
      simp only [hpk]
      rw [if_pos hc]
      simp
    refine ⟨⟨s.offset, "wanted any character, got invalid UTF-8 encoding"⟩, ?_⟩
    unfold whitespaceChar predP
    simp only [ha]
  · have ha : anyChar s = some (.ok (s.advance 1) (.ch c)) := by
      unfold anyChar
      simp only [hpk]
      rw [if_neg hc]
    refine ⟨{ offset := s.offset, message := "predicate failed" }, ?_⟩
    unfold whitespaceChar predP
    simp only [ha]
    rw [if_neg (by simp [hws])]

/-- `OneOrMoreWhitespaceChars` fails whenever the next rune is not
whitespace (its unguarded first parse fails). -/
theorem oneOrMoreWS_errs {n : Nat} {s : Source} {c : Char} {rest : List Char}
    (h : s.remaining = c :: rest) (hws : c.isWhitespace = false) :
    ∃ e, oneOrMoreWS n s = some (.err s e) := by
  obtain ⟨e, he⟩ := whitespaceChar_fails h hws
  exact ⟨e, oneOrMore_errs he⟩

theorem runeP_ne_errs {r : Char} {s : Source} {c : Char} {rest : List Char}
    (h : s.remaining = c :: rest) (hne : r ≠ c) :
    ∃ e, runeP r s = some (.err s e) := by
  have hpk : s.peekRune = (c, 1) := by
    unfold Source.peekRune
    rw [h]
  by_cases hc : c = runeError
  · refine ⟨⟨s.offset, "wanted a literal " ++ goQuoteChar r ++ ", got invalid UTF-8 encoding"⟩, ?_⟩
    unfold runeP
    simp only [hpk]
    rw [if_pos hc]
    simp
  · refine ⟨⟨s.offset, "wanted a literal " ++ goQuoteChar r ++ ", got " ++ goQuoteChar c⟩, ?_⟩
    unfold runeP
    simp only [hpk]
    rw [if_neg hc, if_neg hne]

theorem remaining_cons_not_finished {s : Source} {c : Char} {rest : List Char}
    (h : s.remaining = c :: rest) : s.finished = false := by
  have hlen : s.content.length - s.offset = rest.length + 1 := by
    have h2 := congrArg List.length h
    unfold Source.remaining at h2
    rw [List.length_drop] at h2
    simpa using h2
  unfold Source.finished
  simp only [decide_eq_false_iff_not]
  omega

/-- One unguarded iteration of `ZeroOrMore` on an unfinished cursor whose
inner parser fails: the loop returns an empty match list at the inner
failure cursor. -/
theorem zeroOrMore_first_err {p : OParser} {n : Nat} {s o : Source} {e : ParseError}
    (hfin : s.finished = false) (h : p s = some (.err o e)) :
    zeroOrMore (n + 1) p s = some (.ok o (.list [])) := by
  unfold zeroOrMore repLoop
  simp [hfin, h]

/-- `Keyword(k)` fails whenever the identifier matched at the cursor differs
from `k` — an identifier merely beginning with `k` is never taken as the
keyword. -/
theorem keywordP_ne_errs {k m : String} {s o : Source}
    (h : identifier s = some (.ok o (.str m))) (hne : m ≠ k) :
    isErrOf (keywordP k s) = true := by
  unfold keywordP predP
  simp only [h]
  rw [if_neg (by simp [hne])]
  rfl

/-- A rule of the shape `Parenthesized(Right(Literal(k), q))` fails whenever
the open parenthesis and the atom text match but `q` then fails. -/
theorem parenthesized_literal_head_fails {k : String} {q : OParser} {s o1 o2 : Source}
    {v1 v2 : Val}
    (h1 : runeP '(' s = some (.ok o1 v1))
    (h2 : literal k o1 = some (.ok o2 v2))
    (hq : isErrOf (q o2) = true) :
    isErrOf (parenthesized (rightP (literal k) q) s) = true := by
  obtain ⟨e1, hin⟩ := pairP_errs_second h2 hq
  have hr : rightP (literal k) q o1 = some (.err o1 e1) := rightP_errs hin
  have hl : isErrOf (leftP (rightP (literal k) q) (runeP ')') o1) = true := by
    obtain ⟨e2, hperr⟩ := pairP_errs_first (isErrOf_of_err hr)
    exact isErrOf_of_err (leftP_errs hperr)
  obtain ⟨e3, h3⟩ := pairP_errs_second h1 hl
  exact isErrOf_of_err (rightP_errs h3)

/-- A rule of the shape `Parenthesized(Right(Literal(k), q))` fails whenever
the head and `q` succeed but the closing `')'` is not next. -/
theorem parenthesized_literal_close_fails {k : String} {q : OParser}
    {s o1 o2 o3 : Source} {v1 v2 v3 : Val} {c : Char} {rest : List Char}
    (h1 : runeP '(' s = some (.ok o1 v1))
    (h2 : literal k o1 = some (.ok o2 v2))
    (hq : q o2 = some (.ok o3 v3))
    (h3 : o3.remaining = c :: rest) (hrp : c ≠ ')') :
    isErrOf (parenthesized (rightP (literal k) q) s) = true := by
  have hinner : rightP (literal k) q o1 = some (.ok o3 v3) := rightP_ok_of h2 hq
  obtain ⟨e0, hclose⟩ := runeP_ne_errs h3 (fun hcc => hrp hcc.symm)
  have hl : isErrOf (leftP (rightP (literal k) q) (runeP ')') o1) = true := by
    obtain ⟨e2, hperr⟩ := pairP_errs_second hinner (isErrOf_of_err hclose)
    exact isErrOf_of_err (leftP_errs hperr)
  obtain ⟨e3, h3'⟩ := pairP_errs_second h1 hl
  exact isErrOf_of_err (rightP_errs h3')

/-- The body of every whitespace-guarded reserved rule,
`Right(OneOrMoreWhitespaceChars(), q2)`, fails whenever the next rune after
the atom is not whitespace. -/
theorem ws_after_literal_errs {n : Nat} {q2 : OParser} {o2 : Source} {c : Char}
    {rest : List Char}
    (h3 : o2.remaining = c :: rest) (hws : c.isWhitespace = false) :
    isErrOf (rightP (oneOrMoreWS n) q2 o2) = true := by
  obtain ⟨e, he⟩ := oneOrMoreWS_errs h3 hws
  obtain ⟨e2, hp⟩ := pairP_errs_first (isErrOf_of_err he)
  exact isErrOf_of_err (rightP_errs hp)

/-- C1: For every parser built from the library's combinators and base
parsers (Literal, Rune, AnyChar, Identifier, Pair, Sequence, Left, Right,
Map, Pred, Choice, OneOrMore, ZeroOrMore, Optional — and hence every grammar
rule composed from them), and for every input cursor, if the parse fails
(returns a non-nil error) then the cursor returned to the caller equals the
input cursor: no partial consumption is externally observable. -/
theorem claim1_fail_returns_input_cursor (p : OParser) (hb : Built p) (s : Source)
    (hfail : isErrOf (p s) = true) : errCursor (p s) = some s := by
  cases hres : p s with
  | none => rw [hres] at hfail; simp [isErrOf] at hfail
  | some r =>
    cases r with
    | ok o v => rw [hres] at hfail; simp [isErrOf] at hfail
    | err o e =>
      simp only [errCursor, Option.some.injEq]
      exact built_noConsume hb s o e hres

/-- Witness for C1: `Pair(Literal("a"), Literal("b"))` on `"ax"` consumes the
`"a"` internally, fails at `"x"`, and still returns the original cursor. -/
theorem claim1_witness :
    isErrOf (pairP (literal "a") (literal "b") (mkSource "ax")) = true ∧
    errCursor (pairP (literal "a") (literal "b") (mkSource "ax")) = some (mkSource "ax") :=
  ⟨rfl, claim1_fail_returns_input_cursor _ (Built.pairC (Built.lit "a") (Built.lit "b"))
    (mkSource "ax") rfl⟩

/-- C2: For every nonempty list of (terminating) parsers and every input
cursor, `Choice` succeeds iff some alternative succeeds; on success it
returns exactly the whole result (output cursor and payload) of the
lowest-indexed succeeding alternative; when all alternatives fail it returns
the error produced by the last alternative, together with the input cursor. -/
theorem claim2_choice_ordered (ps : List OParser) (input : Source)
    (hne : ps ≠ []) (hterm : ∀ p ∈ ps, p input ≠ none) :
    (resultOk (choiceP ps input) = true ↔ ∃ p ∈ ps, resultOk (p input) = true)
    ∧ (∀ p, ps.find? (fun q => resultOk (q input)) = some p → choiceP ps input = p input)
    ∧ ((∀ p ∈ ps, isErrOf (p input) = true) →
        ∃ plast o e, ps.getLast? = some plast ∧ plast input = some (.err o e) ∧
          choiceP ps input = some (.err input e)) := by
  refine ⟨choiceGo_ok_iff input ps hne hterm, ?_, ?_⟩
  · intro p hf
    exact choiceGo_find input ps hterm p hf
  · intro hfail
    exact choiceGo_allFail input ps hne hfail

/-- Witness for C2: over `[Literal("a"), Literal("b")]` on `"b"`, the first
succeeding alternative is the second one and `Choice` returns its result. -/
theorem claim2_witness :
    choiceP [literal "a", literal "b"] (mkSource "b") = literal "b" (mkSource "b") :=
  (claim2_choice_ordered [literal "a", literal "b"] (mkSource "b")
      (List.cons_ne_nil _ _)
      (fun p hp => by
        rcases List.mem_cons.mp hp with rfl | hp2
        · exact isSome_ne_none rfl
        · rcases List.mem_cons.mp hp2 with rfl | hp3
          · exact isSome_ne_none rfl
          · exact absurd hp3 (List.not_mem_nil p))).2.1
    (literal "b") rfl

/-- C6: For every parser `p`, fuel amount and input cursor: whenever
`ZeroOrMore(p)` returns, it returns a success carrying a (possibly empty)
list of matches — it never fails — and whenever `OneOrMore(p)` returns, it
fails exactly when `p` itself fails on the initial cursor (a failure of `p`
on a later iteration merely ends the repetition). -/
theorem claim6_repetition_failure (p : OParser) (fuel : Nat) (s : Source) :
    (∀ r, zeroOrMore fuel p s = some r → ∃ o vs, r = .ok o (.list vs))
    ∧ (∀ r, oneOrMore fuel p s = some r → (isErrOf (some r) = true ↔ isErrOf (p s) = true)) := by
  constructor
  · intro r h
    exact repLoop_ok p fuel s [] r h
  · intro r h
    unfold oneOrMore at h
    cases e1 : p s with
    | none => rw [e1] at h; exact absurd h (by simp)
    | some r1 =>
      cases r1 with
      | err o1 e1' =>
        rw [e1] at h
        simp only [Option.some.injEq] at h
        subst h
        exact Iff.rfl
      | ok o1 v1 =>
        rw [e1] at h
        obtain ⟨o2, vs, hr⟩ := repLoop_ok p fuel o1 [v1] r h
        subst hr
        simp [isErrOf]

/-- Witness for C6 with `p = Literal("a")` on `"b"`: `ZeroOrMore` succeeds
with the empty match list, and `OneOrMore` fails exactly because `p` fails
on the initial cursor. -/
theorem claim6_witness :
    (∃ o vs, PResult.ok (mkSource "b") (Val.list []) = PResult.ok o (Val.list vs)) ∧
    (isErrOf (some (PResult.err (mkSource "b")
        { offset := 0
          message := "wanted a literal " ++ goQuote "a" ++ ", got: " ++ goQuote "b" })) = true ↔
      isErrOf (literal "a" (mkSource "b")) = true) :=
  ⟨(claim6_repetition_failure (literal "a") 3 (mkSource "b")).1 _ rfl,
    (claim6_repetition_failure (literal "a") 3 (mkSource "b")).2 _ rfl⟩

/-- C7: For every parser built from the combinators and every cursor whose
offset is within the input, a successful parse never moves the offset
backwards and never past the input length; correspondingly `Advance(n)`
(with a non-negative count, as at every call site) never decreases the
offset, keeps it within bounds, and clamps it at the input length when the
advance would pass the end. -/
theorem claim7_offset_monotone_bounded :
    (∀ p, Built p → ∀ s o v, s.offset ≤ s.content.length → p s = some (.ok o v) →
      s.offset ≤ o.offset ∧ o.offset ≤ s.content.length)
    ∧ (∀ (s : Source) (n : Nat), s.offset ≤ s.content.length →
        s.offset ≤ (s.advance n).offset ∧ (s.advance n).offset ≤ s.content.length)
    ∧ (∀ (s : Source) (n : Nat), s.content.length ≤ n + s.offset →
        (s.advance n).offset = s.content.length) := by
  refine ⟨?_, ?_, advance_clamps⟩
  · intro p hb s o v hoff h
    obtain ⟨_, h1, h2⟩ := built_okBounds hb s o v hoff h
    exact ⟨h1, h2⟩
  · intro s n hoff
    obtain ⟨_, h1, h2⟩ := advance_bounds s n hoff
    exact ⟨h1, h2⟩

/-- Witness for C7: `Literal("a")` on `"ab"` moves the offset from 0 to 1,
within bounds; `Advance` is monotone and clamps past the end. -/
theorem claim7_witness :
    ((mkSource "ab").offset ≤ (Source.mk "ab".toList 1).offset ∧
      (Source.mk "ab".toList 1).offset ≤ (mkSource "ab").content.length) ∧
    ((mkSource "ab").offset ≤ ((mkSource "ab").advance 1).offset ∧
      ((mkSource "ab").advance 1).offset ≤ (mkSource "ab").content.length) ∧
    ((mkSource "ab").advance 5).offset = (mkSource "ab").content.length :=
  ⟨claim7_offset_monotone_bounded.1 (literal "a") (Built.lit "a") (mkSource "ab")
      (Source.mk "ab".toList 1) (.str "a") (by decide) rfl,
    claim7_offset_monotone_bounded.2.1 (mkSource "ab") 1 (by decide),
    claim7_offset_monotone_bounded.2.2 (mkSource "ab") 5 (by decide)⟩

/-- C10: `ZeroOrMore(p)` and `OneOrMore(p)` terminate on every input,
provided `p` itself always terminates, strictly advances the cursor offset
whenever it succeeds on an unfinished cursor, and parses within the same
content; moreover both loops check `Finished()` before each iteration, so
on a finished cursor the loop returns its accumulated matches at once,
without invoking `p` again. -/
theorem claim10_repetition_terminates (p : OParser)
    (htot : ∀ s, p s ≠ none)
    (hadv : ∀ s o v, s.finished = false → p s = some (.ok o v) → s.offset < o.offset)
    (hcont : ∀ s o v, p s = some (.ok o v) → o.content = s.content) :
    (∀ fuel s, s.content.length < fuel →
        zeroOrMore fuel p s ≠ none ∧ oneOrMore fuel p s ≠ none)
    ∧ (∀ (fuel : Nat) (s : Source) (acc : List Val), s.finished = true →
        repLoop p (fuel + 1) s acc = some (.ok s (.list acc))) := by
  constructor
  · intro fuel s hfuel
    exact ⟨zeroOrMore_total htot hadv hcont fuel s hfuel,
      oneOrMore_total htot hadv hcont fuel s hfuel⟩
  · intro fuel s acc hfin
    unfold repLoop
    rw [hfin]
    rfl

/-- Witness for C10 with the always-failing parser (which trivially satisfies
the advancing preconditions): both repetitions terminate on `"a"`, and the
loop returns immediately on a finished cursor. -/
theorem claim10_witness :
    (zeroOrMore 2 (fun s => some (.err s { offset := 0, message := "no" })) (mkSource "a") ≠ none ∧
      oneOrMore 2 (fun s => some (.err s { offset := 0, message := "no" })) (mkSource "a") ≠ none) ∧
    repLoop (fun s => some (.err s { offset := 0, message := "no" })) 1 (mkSource "") [] =
      some (.ok (mkSource "") (.list [])) :=
  ⟨(claim10_repetition_terminates (fun s => some (.err s { offset := 0, message := "no" }))
      (fun _ => isSome_ne_none rfl)
      (fun s o v _ h => absurd h (by simp))
      (fun s o v h => absurd h (by simp))).1 2 (mkSource "a") (by decide),
    (claim10_repetition_terminates (fun s => some (.err s { offset := 0, message := "no" }))
      (fun _ => isSome_ne_none rfl)
      (fun s o v _ h => absurd h (by simp))
      (fun s o v h => absurd h (by simp))).2 0 (mkSource "") [] (by decide)⟩

end Jolang

namespace Jolang

/-- C3 counterexample: the claim fails on the code in two ways.  With
`s = ""`, `Literal("")` does not fail at all on an exhausted cursor; and on
`Source{Content: "ab", Offset: 2}` (remaining input empty) `Literal("cd")`
fails with got-part `"a"` — the first rune of the ENTIRE content — not the
empty string, because `Peek` ranges over the whole content, ignoring the
offset. -/
theorem claim3_counterexample :
    literal "" { content := "ab".toList, offset := 2 } =
      some (.ok { content := "ab".toList, offset := 2 } (.str ""))
    ∧ Source.remaining { content := "ab".toList, offset := 2 } = []
    ∧ literal "cd" { content := "ab".toList, offset := 2 } =
        some (.err { content := "ab".toList, offset := 2 }
          { offset := 2
            message := "wanted a literal " ++ goQuote "cd" ++ ", got: " ++ goQuote "a" })
    ∧ goQuote "a" ≠ goQuote "" :=
  ⟨rfl, rfl, rfl, by decide⟩

/-- C3 amended: for every NONEMPTY string `s` and every input cursor whose
remaining input is empty, `Literal(s)` fails with an error whose offset
equals the cursor's current offset and whose message embeds `Peek()` of the
cursor — the first rune of the ENTIRE content — so the got-part is the empty
string exactly when the whole content is empty, not regardless of the
already-consumed part. -/
theorem claim3_amended (t : String) (s : Source) (ht : t ≠ "") (hrem : s.remaining = []) :
    literal t s = some (.err s
      { offset := s.offset
        message := "wanted a literal " ++ goQuote t ++ ", got: " ++ goQuote s.peek })
    ∧ (s.content = [] → s.peek = "") := by
  constructor
  · have htl : t.toList ≠ [] := by
      intro hnil
      apply ht
      cases t with
      | mk d =>
        simp only [String.toList] at hnil
        simp [hnil]
    unfold literal
    rw [hrem]
    cases hc : t.toList with
    | nil => exact absurd hc htl
    | cons c cs => simp [List.isPrefixOf]
  · intro hcon
    unfold Source.peek
    rw [hcon]

/-- Witness for the amended C3 at `Literal("cd")` on content `"ab"` fully
consumed: the message embeds the peek of the whole content. -/
theorem claim3_amended_witness :
    literal "cd" { content := "ab".toList, offset := 2 } =
      some (.err { content := "ab".toList, offset := 2 }
        { offset := Source.offset { content := "ab".toList, offset := 2 }
          message := "wanted a literal " ++ goQuote "cd" ++ ", got: " ++
            goQuote (Source.peek { content := "ab".toList, offset := 2 }) })
    ∧ (Source.content { content := "ab".toList, offset := 2 } = [] →
        Source.peek { content := "ab".toList, offset := 2 } = "") :=
  claim3_amended "cd" { content := "ab".toList, offset := 2 } (by decide) rfl

theorem mapP_ok_of {p : OParser} {f : Val → Val} {s o : Source} {v : Val}
    (h : p s = some (.ok o v)) : mapP p f s = some (.ok o (f v)) := by
  unfold mapP
  rw [h]

/-- C8: On every input cursor whose remaining input begins with the digit
'0', the decimal integer literal rule matches exactly the single character
"0" (the `Literal("0")` branch of the choice is tried before the
nonzero-digit branch), produces `BasicLit{INT, "0"}`, and advances the
cursor by exactly one character, leaving any immediately following digits
unconsumed. -/
theorem claim8_leading_zero (fuel : Nat) (s : Source) (rest : List Char)
    (h : s.remaining = '0' :: rest) :
    decimalLitP fuel s = some (.ok (s.advance 1) (.node (.basicLit .int "0"))) := by
  have hlit : literal "0" s = some (.ok (s.advance 1) (.str "0")) := by
    have hpre : "0".toList.isPrefixOf ('0' :: rest) = true := by
      simp [List.isPrefixOf]
    unfold literal
    rw [h, if_pos hpre]
    rfl
  have hch : choiceP [literal "0",
      mapP (pairP nonZeroDigit (zeroOrMore fuel decimalDigit)) mkNonZeroDecimal] s =
      some (.ok (s.advance 1) (.str "0")) := by
    unfold choiceP choiceGo
    rw [hlit]
  exact mapP_ok_of hch

/-- Witness for C8 on `"0123"`: only the `"0"` is consumed and the literal
produced is `BasicLit{INT, "0"}`; the digits `123` remain unread. -/
theorem claim8_witness :
    decimalLitP 5 (mkSource "0123") =
      some (.ok ((mkSource "0123").advance 1) (.node (.basicLit .int "0"))) :=
  claim8_leading_zero 5 (mkSource "0123") "123".toList rfl

/-- C9: `Identifier` fails exactly when the remaining input is non-empty and
its first rune is neither a letter nor '_'; on a cursor whose remaining
input is empty it succeeds matching the empty string, and `Ident` then
produces an `Ident` node whose `Name` is the empty string. -/
theorem claim9_identifier_empty_ok :
    (∀ s : Source, s.remaining = [] →
      identifier s = some (.ok (s.advance 0) (.str "")) ∧
      identP s = some (.ok (s.advance 0) (.node (.ident ""))))
    ∧ (∀ (s : Source) (c : Char) (rest : List Char), s.remaining = c :: rest →
        (isErrOf (identifier s) = true ↔ ¬(isGoLetter c = true ∨ c = '_'))) := by
  constructor
  · intro s hrem
    have hid : identifier s = some (.ok (s.advance 0) (.str "")) := by
      unfold identifier
      rw [hrem]
    refine ⟨hid, ?_⟩
    unfold identP mapP
    rw [hid]
    rfl
  · intro s c rest hrem
    have hred : identifier s =
        (if isGoLetter c || c = '_' then
          some (.ok (s.advance (c :: identTail rest).length)
            (.str (String.mk (c :: identTail rest))))
        else
          some (.err s
            { offset := s.offset, message := "wanted identifier, got " ++ goQuoteChar c })) := by
      unfold identifier
      rw [hrem]
    rw [hred]
    by_cases hcond : (isGoLetter c || c = '_') = true
    · rw [if_pos hcond]
      have hP : isGoLetter c = true ∨ c = '_' := by simpa using hcond
      simp [isErrOf, hP]
    · rw [if_neg hcond]
      have hP : ¬(isGoLetter c = true ∨ c = '_') := by
        intro hor
        apply hcond
        simpa using hor
      simp [isErrOf, hP]

/-- Witness for C9: at end of input `Identifier` succeeds with the empty
name; on `"9"` it fails because '9' is neither a letter nor '_'. -/
theorem claim9_witness :
    (identifier (mkSource "") = some (.ok ((mkSource "").advance 0) (.str "")) ∧
      identP (mkSource "") = some (.ok ((mkSource "").advance 0) (.node (.ident "")))) ∧
    (isErrOf (identifier (mkSource "9")) = true ↔ ¬(isGoLetter '9' = true ∨ '9' = '_')) :=
  ⟨claim9_identifier_empty_ok.1 (mkSource "") rfl,
    claim9_identifier_empty_ok.2 (mkSource "9") '9' [] rfl⟩

end Jolang

namespace Jolang

/-- C4 counterexample: where a `Block` is expected, the input `(doX)` is NOT
parsed as the whole identifier `doX` (which would give the call
`CallExpr{doX, []}` inside the block); instead `Literal("do")` — which
requires no following whitespace — consumes the `do` and the remainder `X`
is parsed as the statement list of a do-block. -/
theorem claim4_counterexample :
    blockTop 12 (mkSource "(doX)") =
      some (.ok { content := "(doX)".toList, offset := 5 }
        (.node (.blockStmt [.exprStmt (.ident "X")])))
    ∧ Val.node (.blockStmt [.exprStmt (.ident "X")]) ≠
        Val.node (.blockStmt [.exprStmt (.callExpr (.ident "doX") [])]) := by
  refine ⟨rfl, ?_⟩
  intro hcontra
  injection hcontra with h1
  injection h1 with h2
  injection h2 with h3 h4
  injection h3 with h5
  exact Ast.noConfusion h5

/-- C4 amended: every reserved atom except `do` is never taken as its
reserved form when fused with an identifier continuation.  The
Keyword-matched atoms (if, for, switch, case, default, var, assign, inc,
dec) succeed only when the entire identifier at the cursor equals the atom,
and provably fail whenever that identifier differs from it.  Each
whitespace-guarded Literal-matched atom (sel, define, package, import,
func, type) provably fails its reserved rule whenever any non-whitespace
character immediately follows the atom text; `struct` provably fails
whenever the character after the atom is neither whitespace nor a
parenthesis — together covering every identifier-continuation character.
Concretely, (selX Y) in Block position and (doX), (ifX y), (packageX y) in
Statement position parse as calls of the whole identifiers selX, doX, ifX,
packageX.  The single exception, forced by the counterexample: `do` is
matched by `Literal("do")` with no whitespace required before its
StatementList, so where a Block is expected (doX) is parsed as the reserved
atom do followed by the statement list X, not as the whole identifier
doX. -/
theorem claim4_amended :
    (∀ (k : String) (s o : Source) (v : Val),
      keywordP k s = some (.ok o v) →
      identifier s = some (.ok o (.str k)) ∧ v = .str k)
    ∧ (∀ (k m : String) (s o : Source),
        identifier s = some (.ok o (.str m)) → m ≠ k →
        isErrOf (keywordP k s) = true)
    ∧ (∀ (n : Nat) (r : Rules) (s o1 o2 : Source) (v1 v2 : Val) (c : Char) (rest : List Char),
        runeP '(' s = some (.ok o1 v1) → literal "sel" o1 = some (.ok o2 v2) →
        o2.remaining = c :: rest → c.isWhitespace = false →
        isErrOf (selectorR n r s) = true)
    ∧ (∀ (n : Nat) (r : Rules) (s o1 o2 : Source) (v1 v2 : Val) (c : Char) (rest : List Char),
        runeP '(' s = some (.ok o1 v1) → literal "define" o1 = some (.ok o2 v2) →
        o2.remaining = c :: rest → c.isWhitespace = false →
        isErrOf (defineR n r s) = true)
    ∧ (∀ (n : Nat) (s o1 o2 : Source) (v1 v2 : Val) (c : Char) (rest : List Char),
        runeP '(' s = some (.ok o1 v1) → literal "package" o1 = some (.ok o2 v2) →
        o2.remaining = c :: rest → c.isWhitespace = false →
        isErrOf (packageClauseP n s) = true)
    ∧ (∀ (n : Nat) (s o1 o2 : Source) (v1 v2 : Val) (c : Char) (rest : List Char),
        runeP '(' s = some (.ok o1 v1) → literal "import" o1 = some (.ok o2 v2) →
        o2.remaining = c :: rest → c.isWhitespace = false →
        isErrOf (importDeclP n s) = true)
    ∧ (∀ (n : Nat) (r : Rules) (s o1 o2 : Source) (v1 v2 : Val) (c : Char) (rest : List Char),
        runeP '(' s = some (.ok o1 v1) → literal "func" o1 = some (.ok o2 v2) →
        o2.remaining = c :: rest → c.isWhitespace = false →
        isErrOf (functionDeclP n r s) = true)
    ∧ (∀ (n : Nat) (s o1 o2 : Source) (v1 v2 : Val) (c : Char) (rest : List Char),
        runeP '(' s = some (.ok o1 v1) → literal "type" o1 = some (.ok o2 v2) →
        o2.remaining = c :: rest → c.isWhitespace = false →
        isErrOf (typeDeclR n s) = true)
    ∧ (∀ (n : Nat) (s o1 o2 : Source) (v1 v2 : Val) (c : Char) (rest : List Char),
        0 < n →
        runeP '(' s = some (.ok o1 v1) → literal "struct" o1 = some (.ok o2 v2) →
        o2.remaining = c :: rest → c.isWhitespace = false → c ≠ '(' → c ≠ ')' →
        isErrOf (structTypeR n s) = true)
    ∧ statementTop 12 (mkSource "(doX)") =
        some (.ok { content := "(doX)".toList, offset := 5 }
          (.node (.exprStmt (.callExpr (.ident "doX") []))))
    ∧ statementTop 12 (mkSource "(ifX y)") =
        some (.ok { content := "(ifX y)".toList, offset := 7 }
          (.node (.exprStmt (.callExpr (.ident "ifX") [.ident "y"]))))
    ∧ statementTop 12 (mkSource "(packageX y)") =
        some (.ok { content := "(packageX y)".toList, offset := 12 }
          (.node (.exprStmt (.callExpr (.ident "packageX") [.ident "y"]))))
    ∧ blockTop 12 (mkSource "(selX Y)") =
        some (.ok { content := "(selX Y)".toList, offset := 8 }
          (.node (.blockStmt [.exprStmt (.callExpr (.ident "selX") [.ident "Y"])])))
    ∧ blockTop 12 (mkSource "(doX)") =
        some (.ok { content := "(doX)".toList, offset := 5 }
          (.node (.blockStmt [.exprStmt (.ident "X")]))) := by
  refine ⟨?_, ?_, ?_, ?_, ?_, ?_, ?_, ?_, ?_, rfl, rfl, rfl, rfl, rfl⟩
  · intro k s o v h
    unfold keywordP predP at h
    cases e1 : identifier s with
    | none => rw [e1] at h; exact absurd h (by simp)
    | some r1 =>
      cases r1 with
      | err o1 e1' => rw [e1] at h; exact absurd h (by simp)
      | ok o1 v1 =>
        simp only [e1] at h
        split at h
        · next hcond =>
          simp only [Option.some.injEq, PResult.ok.injEq] at h
          obtain ⟨ho, hv⟩ := h
          subst ho
          subst hv
          cases v1 with
          | str s2 =>
            have hs2 : s2 = k := by simpa using hcond
            subst hs2
            exact ⟨rfl, rfl⟩
          | null => simp at hcond
          | ch c => simp at hcond
          | tok t => simp at hcond
          | pair a b => simp at hcond
          | list vs => simp at hcond
          | node a => simp at hcond
          | selCall a b => simp at hcond
          | stmtList l => simp at hcond
          | exprList l => simp at hcond
        · exact absurd h (by simp)
  · intro k m s o h hne
    exact keywordP_ne_errs h hne
  · intro n r s o1 o2 v1 v2 c rest h1 h2 h3 hws
    exact mapP_isErr (parenthesized_literal_head_fails h1 h2 (ws_after_literal_errs h3 hws))
  · intro n r s o1 o2 v1 v2 c rest h1 h2 h3 hws
    refine mapP_isErr (parenthesized_literal_head_fails h1 h2 ?_)
    obtain ⟨e2, hp⟩ := pairP_errs_first (ws_after_literal_errs h3 hws)
    exact isErrOf_of_err hp
  · intro n s o1 o2 v1 v2 c rest h1 h2 h3 hws
    exact parenthesized_literal_head_fails h1 h2 (ws_after_literal_errs h3 hws)
  · intro n s o1 o2 v1 v2 c rest h1 h2 h3 hws
    refine mapP_isErr (parenthesized_literal_head_fails h1 h2 ?_)
    obtain ⟨o0, e0, hr⟩ := errs_of_isErrOf (ws_after_literal_errs h3 hws)
    exact isErrOf_of_err (oneOrMore_errs hr)
  · intro n r s o1 o2 v1 v2 c rest h1 h2 h3 hws
    exact mapP_isErr (parenthesized_literal_head_fails h1 h2 (ws_after_literal_errs h3 hws))
  · intro n s o1 o2 v1 v2 c rest h1 h2 h3 hws
    exact mapP_isErr (parenthesized_literal_head_fails h1 h2 (ws_after_literal_errs h3 hws))
  · intro n s o1 o2 v1 v2 c rest hn h1 h2 h3 hws hlp hrp
    obtain ⟨m, rfl⟩ : ∃ m, n = m + 1 := ⟨n - 1, by omega⟩
    have hfin : o2.finished = false := remaining_cons_not_finished h3
    have hzws : zeroOrMoreWS (m + 1) o2 = some (.ok o2 (.list [])) := by
      obtain ⟨e, he⟩ := whitespaceChar_fails h3 hws
      exact zeroOrMore_first_err hfin he
    obtain ⟨e0, hop⟩ := runeP_ne_errs h3 (fun hcc => hlp hcc.symm)
    obtain ⟨e1, hp1⟩ :=
      @pairP_errs_first (runeP '(')
        (leftP (pairP identP (rightP (oneOrMoreWS (m + 1)) identP)) (runeP ')')) o2
        (isErrOf_of_err hop)
    have hparen : parenthesized (pairP identP (rightP (oneOrMoreWS (m + 1)) identP)) o2 =
        some (.err o2 e1) := rightP_errs hp1
    obtain ⟨e2, hp2⟩ := pairP_errs_second hzws (isErrOf_of_err hparen)
    have hbody := rightP_errs hp2
    have hloop : zeroOrMore (m + 1)
        (rightP (zeroOrMoreWS (m + 1))
          (parenthesized (pairP identP (rightP (oneOrMoreWS (m + 1)) identP)))) o2 =
        some (.ok o2 (.list [])) := zeroOrMore_first_err hfin hbody
    exact mapP_isErr (parenthesized_literal_close_fails h1 h2 hloop h3 hrp)

/-- Witness for the amended C4: `Keyword("if")` succeeding on `"if ("` means
the identifier at the cursor is exactly `if`; `Keyword("if")` fails on the
fused identifier `ifX`; the `sel` rule fails on `(selX Y)` because a
non-whitespace character follows the atom; and the `struct` rule fails on
`(structX)`. -/
theorem claim4_amended_witness :
    (identifier (mkSource "if (") =
        some (.ok { content := "if (".toList, offset := 2 } (.str "if")) ∧
      (Val.str "if" : Val) = .str "if") ∧
    isErrOf (keywordP "if" (mkSource "ifX y")) = true ∧
    isErrOf (selectorR 12 (rules 12) (mkSource "(selX Y)")) = true ∧
    isErrOf (structTypeR 5 (mkSource "(structX)")) = true :=
  ⟨claim4_amended.1 "if" (mkSource "if (")
      { content := "if (".toList, offset := 2 } (.str "if") rfl,
    claim4_amended.2.1 "if" "ifX" (mkSource "ifX y")
      { content := "ifX y".toList, offset := 3 } rfl (by decide),
    claim4_amended.2.2.1 12 (rules 12) (mkSource "(selX Y)")
      { content := "(selX Y)".toList, offset := 1 } { content := "(selX Y)".toList, offset := 4 }
      (.ch '(') (.str "sel") 'X' (" Y)".toList) rfl rfl rfl rfl,
    claim4_amended.2.2.2.2.2.2.2.2.1 5 (mkSource "(structX)")
      { content := "(structX)".toList, offset := 1 } { content := "(structX)".toList, offset := 7 }
      (.ch '(') (.str "struct") 'X' (")".toList) (by decide) rfl rfl rfl rfl (by decide)
      (by decide)⟩

/-- C5: the map function of `Selector` folds the parsed suffixes
left-associatively over the base expression, exactly as `List.foldl` of the
spec's step function (identifier suffix wraps the accumulator in a
`SelectorExpr`, call suffix wraps it in a `CallExpr` over a `SelectorExpr`);
concretely, `(sel myStruct Outer Middle Inner)` parses to
`Selector(Selector(Selector(myStruct, Outer), Middle), Inner)`. -/
theorem claim5_selector_left_fold :
    (∀ (base : Ast) (suffixes : List Val),
      selFoldGo base suffixes = suffixes.foldl selStepSpec base)
    ∧ selectorTop 12 (mkSource "(sel myStruct Outer Middle Inner)") =
        some (.ok { content := "(sel myStruct Outer Middle Inner)".toList, offset := 33 }
          (.node (.selectorExpr (.selectorExpr (.selectorExpr (.ident "myStruct")
            (.ident "Outer")) (.ident "Middle")) (.ident "Inner")))) := by
  refine ⟨?_, rfl⟩
  intro base suffixes
  induction suffixes generalizing base with
  | nil => rfl
  | cons v rest ih =>
    rw [selFoldGo_cons, List.foldl_cons]
    exact ih (selStepSpec base v)

end Jolang
